import Mathlib

/-!
Jason value descriptor and the VPack fuzzer: a shallow embedding.

Embedding of `src/Jason.h` (class `Jason`) and of `src/tools/fuzzer.cpp`
(random structure generator, option parsing, thread plan).

Conventions:
* machine integers are `Nat` / `Int` with explicit wrap-around (`% 2^w`);
* a `double` is its IEEE-754 binary64 bit pattern (a `Nat` below `2^64`);
* pointers are addresses (`Nat`);
* `assert` / `VELOCYPACK_ASSERT` are enabled: a failing assertion is an error value;
* the random generator `std::mt19937_64` is an arbitrary stream of 64-bit draws.
-/

set_option maxRecDepth 100000

deriving instance DecidableEq for Except

/-! ## Part 1: `src/Jason.h` -/

/-- Modelled from the spec: the header `JasonType.h` is not part of the sources, the
enumeration of value kinds is the Type Tag list of the data model
(`Null, Bool, Double, SmallInt, Int, UInt, UTCDate, String, Binary, Array, Object,
External, Illegal, MinKey, MaxKey, Custom`). -/
inductive JasonType
  | Null | Bool | Double | SmallInt | Int | UInt | UTCDate | String | Binary
  | Array | Object | External | Illegal | MinKey | MaxKey | Custom
  deriving DecidableEq, Repr

/-- Conversion `static_cast<int64_t>(x)`: the value of `x` wrapped to the signed
64-bit range. -/
def static_cast_int64 (x : Int) : Int :=
  (x + 2 ^ 63) % 2 ^ 64 - 2 ^ 63

/-- Conversion `static_cast<uint64_t>(x)`: the value of `x` wrapped to the unsigned
64-bit range. -/
def static_cast_uint64 (x : Nat) : Nat :=
  x % 2 ^ 64

namespace Jason

/-- Enumeration `Jason::CType`: denotes the variant used, `0`: none. -/
inductive CType
  | None | Bool | Double | Int64 | UInt64 | String
  deriving DecidableEq, Repr

/-- Numeric value of a `CType` enumerator. -/
def CType.val : CType → Nat
  | .None => 0
  | .Bool => 1
  | .Double => 2
  | .Int64 => 3
  | .UInt64 => 4
  | .String => 5

/-- Members of the anonymous union `_value`. -/
inductive Field
  | b | d | i | u | s | e
  deriving DecidableEq, Repr

/-- Content of the anonymous union `_value`: the member that was written last together
with its value, or `unwritten` when no member was ever assigned. -/
inductive UnionValue
  | unwritten
  | b (v : Bool)
  | d (bits : Nat)
  | i (v : Int)
  | u (v : Nat)
  | s (ptr : Nat)
  | e (ptr : Nat)
  deriving DecidableEq, Repr

/-- Member of the union that holds a value, if any. -/
def UnionValue.active : UnionValue → Option Field
  | .unwritten => none
  | .b _ => some Field.b
  | .d _ => some Field.d
  | .i _ => some Field.i
  | .u _ => some Field.u
  | .s _ => some Field.s
  | .e _ => some Field.e

/-- Ways in which a getter can go wrong: its `assert` fails, or the assertion passes and
the union member it reads is not the one that holds a value. -/
inductive GetError
  | assertionFailed
  | inactiveMember
  deriving DecidableEq, Repr

end Jason

/-- Data members of class `Jason`: `_jasonType`, `_cType` and the union `_value`. -/
structure Jason where
  _jasonType : JasonType
  _cType : Jason.CType
  _value : Jason.UnionValue
  deriving DecidableEq, Repr

namespace Jason

/-- Constructor `Jason (JasonType t = JasonType::Null)`. -/
def ofType (t : JasonType := JasonType.Null) : Jason :=
  { _jasonType := t, _cType := CType.None, _value := UnionValue.unwritten }

/-- Constructor `Jason (bool b, JasonType t = JasonType::Bool)`. -/
def ofBool (b : Bool) (t : JasonType := JasonType.Bool) : Jason :=
  { _jasonType := t, _cType := CType.Bool, _value := UnionValue.b b }

/-- Constructor `Jason (double d, JasonType t = JasonType::Double)`. -/
def ofDouble (d : Nat) (t : JasonType := JasonType.Double) : Jason :=
  { _jasonType := t, _cType := CType.Double, _value := UnionValue.d d }

/-- Constructor `Jason (char const* e)`. -/
def ofExternal (e : Nat) : Jason :=
  { _jasonType := JasonType.External, _cType := CType.None, _value := UnionValue.e e }

/-- Constructor `Jason (int32_t i, JasonType t = JasonType::Int)`. -/
def ofInt32 (i : Int) (t : JasonType := JasonType.Int) : Jason :=
  { _jasonType := t, _cType := CType.Int64, _value := UnionValue.i (static_cast_int64 i) }

/-- Constructor `Jason (uint32_t u, JasonType t = JasonType::UInt)`. -/
def ofUInt32 (u : Nat) (t : JasonType := JasonType.UInt) : Jason :=
  { _jasonType := t, _cType := CType.UInt64, _value := UnionValue.u (static_cast_uint64 u) }

/-- Constructor `Jason (int64_t i, JasonType t = JasonType::Int)`. -/
def ofInt64 (i : Int) (t : JasonType := JasonType.Int) : Jason :=
  { _jasonType := t, _cType := CType.Int64, _value := UnionValue.i i }

/-- Constructor `Jason (uint64_t u, JasonType t = JasonType::UInt)`. -/
def ofUInt64 (u : Nat) (t : JasonType := JasonType.UInt) : Jason :=
  { _jasonType := t, _cType := CType.UInt64, _value := UnionValue.u u }

/-- Constructor `Jason (std::string const& s, JasonType t = JasonType::String)`; the
argument is the address of the referenced string (`_value.s = &s`). -/
def ofString (s : Nat) (t : JasonType := JasonType.String) : Jason :=
  { _jasonType := t, _cType := CType.String, _value := UnionValue.s s }

/-- Method `jasonType ()`. -/
def jasonType (j : Jason) : JasonType := j._jasonType

/-- Method `cType ()`. -/
def cType (j : Jason) : CType := j._cType

/-- Method `getBool ()`: `assert(_cType == Bool); return _value.b;`. -/
def getBool (j : Jason) : Except GetError Bool :=
  if j._cType = CType.Bool then
    match j._value with
    | .b v => .ok v
    | _ => .error GetError.inactiveMember
  else .error GetError.assertionFailed

/-- Method `getDouble ()`: `assert(_cType == Double); return _value.d;`. -/
def getDouble (j : Jason) : Except GetError Nat :=
  if j._cType = CType.Double then
    match j._value with
    | .d v => .ok v
    | _ => .error GetError.inactiveMember
  else .error GetError.assertionFailed

/-- Method `getInt64 ()`: `assert(_cType == Int64); return _value.i;`. -/
def getInt64 (j : Jason) : Except GetError Int :=
  if j._cType = CType.Int64 then
    match j._value with
    | .i v => .ok v
    | _ => .error GetError.inactiveMember
  else .error GetError.assertionFailed

/-- Method `getUInt64 ()`: `assert(_cType == UInt64); return _value.u;`. -/
def getUInt64 (j : Jason) : Except GetError Nat :=
  if j._cType = CType.UInt64 then
    match j._value with
    | .u v => .ok v
    | _ => .error GetError.inactiveMember
  else .error GetError.assertionFailed

/-- Method `getString ()`: `assert(_cType == String); return _value.s;`. -/
def getString (j : Jason) : Except GetError Nat :=
  if j._cType = CType.String then
    match j._value with
    | .s v => .ok v
    | _ => .error GetError.inactiveMember
  else .error GetError.assertionFailed

/-- Method `getExternal ()`: `assert(_cType == None); return _value.e;`. -/
def getExternal (j : Jason) : Except GetError Nat :=
  if j._cType = CType.None then
    match j._value with
    | .e v => .ok v
    | _ => .error GetError.inactiveMember
  else .error GetError.assertionFailed

/-- The six getters of class `Jason`. -/
inductive Getter
  | getBool | getDouble | getInt64 | getUInt64 | getString | getExternal
  deriving DecidableEq, Repr

/-- Value of `_cType` that the `assert` of a getter requires. -/
def Getter.asserted : Getter → CType
  | .getBool => CType.Bool
  | .getDouble => CType.Double
  | .getInt64 => CType.Int64
  | .getUInt64 => CType.UInt64
  | .getString => CType.String
  | .getExternal => CType.None

/-- Union member that a getter returns. -/
def Getter.reads : Getter → Field
  | .getBool => Field.b
  | .getDouble => Field.d
  | .getInt64 => Field.i
  | .getUInt64 => Field.u
  | .getString => Field.s
  | .getExternal => Field.e

/-- The `assert` inside getter `g` passes on descriptor `j`. -/
def Getter.assertionPasses (g : Getter) (j : Jason) : Bool :=
  decide (j._cType = g.asserted)

/-- A call of one of the public constructors of `Jason`, default arguments resolved. -/
inductive Ctor
  | ofType (t : JasonType)
  | ofBool (b : Bool) (t : JasonType)
  | ofDouble (d : Nat) (t : JasonType)
  | ofExternal (e : Nat)
  | ofInt32 (i : Int) (t : JasonType)
  | ofUInt32 (u : Nat) (t : JasonType)
  | ofInt64 (i : Int) (t : JasonType)
  | ofUInt64 (u : Nat) (t : JasonType)
  | ofString (s : Nat) (t : JasonType)
  deriving DecidableEq, Repr

/-- Descriptor that a constructor call produces. -/
def Ctor.build : Ctor → Jason
  | .ofType t => Jason.ofType t
  | .ofBool b t => Jason.ofBool b t
  | .ofDouble d t => Jason.ofDouble d t
  | .ofExternal e => Jason.ofExternal e
  | .ofInt32 i t => Jason.ofInt32 i t
  | .ofUInt32 u t => Jason.ofUInt32 u t
  | .ofInt64 i t => Jason.ofInt64 i t
  | .ofUInt64 u t => Jason.ofUInt64 u t
  | .ofString s t => Jason.ofString s t

/-- The same constructor call with the type tag replaced (the pointer constructor has no
tag argument). -/
def Ctor.withTag (t : JasonType) : Ctor → Ctor
  | .ofType _ => .ofType t
  | .ofBool b _ => .ofBool b t
  | .ofDouble d _ => .ofDouble d t
  | .ofExternal e => .ofExternal e
  | .ofInt32 i _ => .ofInt32 i t
  | .ofUInt32 u _ => .ofUInt32 u t
  | .ofInt64 i _ => .ofInt64 i t
  | .ofUInt64 u _ => .ofUInt64 u t
  | .ofString s _ => .ofString s t

end Jason

/-! ## Part 2: `src/tools/fuzzer.cpp` -/

/-- The two format tags `struct VPackFormat {}` and `struct JSONFormat {}`. -/
inductive Format
  | VPackFormat | JSONFormat
  deriving DecidableEq, Repr

/-- Enumeration `RandomBuilderAdditions`. -/
inductive RandomBuilderAdditions
  | ADD_ARRAY | ADD_OBJECT | ADD_BOOLEAN | ADD_STRING | ADD_NULL | ADD_UINT64 | ADD_INT64
  | ADD_DOUBLE | ADD_UTC_DATE | ADD_BINARY | ADD_EXTERNAL | ADD_ILLEGAL | ADD_MIN_KEY
  | ADD_MAX_KEY | ADD_MAX_VPACK_VALUE
  deriving DecidableEq, Repr

namespace RandomBuilderAdditions

/-- Numeric value of an enumerator (`ADD_ARRAY = 0`, then counting up). -/
def val : RandomBuilderAdditions → Nat
  | ADD_ARRAY => 0
  | ADD_OBJECT => 1
  | ADD_BOOLEAN => 2
  | ADD_STRING => 3
  | ADD_NULL => 4
  | ADD_UINT64 => 5
  | ADD_INT64 => 6
  | ADD_DOUBLE => 7
  | ADD_UTC_DATE => 8
  | ADD_BINARY => 9
  | ADD_EXTERNAL => 10
  | ADD_ILLEGAL => 11
  | ADD_MIN_KEY => 12
  | ADD_MAX_KEY => 13
  | ADD_MAX_VPACK_VALUE => 14

/-- Conversion `static_cast<RandomBuilderAdditions>(n)`: the enumerator whose value is
`n`; `none` when `n` is the value of no enumerator. -/
def static_cast (n : Nat) : Option RandomBuilderAdditions :=
  match n with
  | 0 => some ADD_ARRAY
  | 1 => some ADD_OBJECT
  | 2 => some ADD_BOOLEAN
  | 3 => some ADD_STRING
  | 4 => some ADD_NULL
  | 5 => some ADD_UINT64
  | 6 => some ADD_INT64
  | 7 => some ADD_DOUBLE
  | 8 => some ADD_UTC_DATE
  | 9 => some ADD_BINARY
  | 10 => some ADD_EXTERNAL
  | 11 => some ADD_ILLEGAL
  | 12 => some ADD_MIN_KEY
  | 13 => some ADD_MAX_KEY
  | 14 => some ADD_MAX_VPACK_VALUE
  | _ => none

end RandomBuilderAdditions

/-- Constants of `struct KnownLimitValues`. -/
structure KnownLimitValues where
  maxDepth : Nat := 10
  utf81ByteFirstLowerBound : Nat := 0x00
  utf81ByteFirstUpperBound : Nat := 0x7F
  utf82BytesFirstLowerBound : Nat := 0xC2
  utf82BytesFirstUpperBound : Nat := 0xDF
  utf83BytesFirstLowerBound : Nat := 0xE0
  utf83BytesFirstUpperBound : Nat := 0xEF
  utf83BytesE0ValidatorLowerBound : Nat := 0xA0
  utf83BytesEDValidatorUpperBound : Nat := 0x9F
  utf84BytesFirstLowerBound : Nat := 0xF0
  utf84BytesFirstUpperBound : Nat := 0xF4
  utf84BytesF0ValidatorLowerBound : Nat := 0x90
  utf84BytesF4ValidatorUpperBound : Nat := 0x8F
  utf8CommonLowerBound : Nat := 0x80
  utf8CommonUpperBound : Nat := 0xBF
  minUtf8RandStringLength : Nat := 1
  maxUtf8RandStringLength : Nat := 1000
  objNumMembers : Nat := 10
  arrayNumMembers : Nat := 10

/-- The alias `using limits = KnownLimitValues;`. -/
def limits : KnownLimitValues := {}

/-- Generator `struct RandomGenerator`: the member `mt64` is a source of 64-bit draws,
given by the sequence of its outputs and the number of draws made so far. -/
structure RandomGenerator where
  stream : Nat → Nat
  pos : Nat

/-- One call `randomGenerator.mt64()`: the next 64-bit draw and the advanced generator. -/
def RandomGenerator.mt64 (g : RandomGenerator) : Nat × RandomGenerator :=
  (g.stream g.pos % 2 ^ 64, { g with pos := g.pos + 1 })

/-- Abnormal ends of the generator code. -/
inductive Abort
  | assertNumBytes
  | assertAddition
  | divisionByZero
  | outOfFuel
  deriving DecidableEq, Repr

/-- Result of a step that may abort. -/
abbrev Run (α : Type) := Except Abort α

/-- Subtraction of two `uint32_t` values. -/
def sub32 (a b : Nat) : Nat := (a % 2 ^ 32 + 2 ^ 32 - b % 2 ^ 32) % 2 ^ 32

/-- Function `randWithinRange`: `return min + (randomGenerator.mt64() % (max - min));`
with the 64-bit sum converted to the `uint32_t` return type. -/
def randWithinRange (min max : Nat) (g : RandomGenerator) : Run (Nat × RandomGenerator) :=
  let d := g.mt64
  if sub32 max min = 0 then .error Abort.divisionByZero
  else .ok (((min + d.1 % sub32 max min) % 2 ^ 64) % 2 ^ 32, d.2)

/-- Call `utf8Str.push_back(c)` with a `uint32_t` argument converted to `char`. -/
def push_back (utf8Str : List Nat) (c : Nat) : List Nat := utf8Str ++ [c % 256]

/-- Function `appendRandUtf8Char`. -/
def appendRandUtf8Char (g : RandomGenerator) (utf8Str : List Nat) :
    Run (List Nat × RandomGenerator) := do
  let (numBytes, g) ← randWithinRange 1 4 g
  match numBytes with
  | 1 =>
    let (c, g) ← randWithinRange limits.utf81ByteFirstLowerBound limits.utf81ByteFirstUpperBound g
    pure (push_back utf8Str c, g)
  | 2 =>
    let (c1, g) ← randWithinRange limits.utf82BytesFirstLowerBound limits.utf82BytesFirstUpperBound g
    let utf8Str := push_back utf8Str c1
    let (c2, g) ← randWithinRange limits.utf8CommonLowerBound limits.utf8CommonUpperBound g
    pure (push_back utf8Str c2, g)
  | 3 =>
    let (randFirstByte, g) ←
      randWithinRange limits.utf83BytesFirstLowerBound limits.utf83BytesFirstUpperBound g
    let utf8Str := push_back utf8Str randFirstByte
    let (c2, g) ←
      if randFirstByte = 0xE0 then
        randWithinRange limits.utf83BytesE0ValidatorLowerBound limits.utf8CommonUpperBound g
      else if randFirstByte = 0xED then
        randWithinRange limits.utf8CommonLowerBound limits.utf83BytesEDValidatorUpperBound g
      else
        randWithinRange limits.utf8CommonLowerBound limits.utf8CommonUpperBound g
    let utf8Str := push_back utf8Str c2
    let (c3, g) ← randWithinRange limits.utf8CommonLowerBound limits.utf8CommonUpperBound g
    pure (push_back utf8Str c3, g)
  | 4 =>
    let (randFirstByte, g) ←
      randWithinRange limits.utf84BytesFirstLowerBound limits.utf84BytesFirstUpperBound g
    let utf8Str := push_back utf8Str randFirstByte
    let (c2, g) ←
      if randFirstByte = 0xF0 then
        randWithinRange limits.utf84BytesF0ValidatorLowerBound limits.utf8CommonUpperBound g
      else if randFirstByte = 0xF4 then
        randWithinRange limits.utf8CommonLowerBound limits.utf84BytesF4ValidatorUpperBound g
      else
        randWithinRange limits.utf8CommonLowerBound limits.utf8CommonUpperBound g
    let utf8Str := push_back utf8Str c2
    let (c3, g) ← randWithinRange limits.utf8CommonLowerBound limits.utf8CommonUpperBound g
    let utf8Str := push_back utf8Str c3
    let (c4, g) ← randWithinRange limits.utf8CommonLowerBound limits.utf8CommonUpperBound g
    pure (push_back utf8Str c4, g)
  | _ => .error Abort.assertNumBytes

/-- The argument pairs `(min, max)` of the calls of `randWithinRange` in the fuzzer, in
source order (all of them are in `appendRandUtf8Char`). -/
def randWithinRangeCallSites : List (Nat × Nat) :=
  [ (1, 4),
    (limits.utf81ByteFirstLowerBound, limits.utf81ByteFirstUpperBound),
    (limits.utf82BytesFirstLowerBound, limits.utf82BytesFirstUpperBound),
    (limits.utf8CommonLowerBound, limits.utf8CommonUpperBound),
    (limits.utf83BytesFirstLowerBound, limits.utf83BytesFirstUpperBound),
    (limits.utf83BytesE0ValidatorLowerBound, limits.utf8CommonUpperBound),
    (limits.utf8CommonLowerBound, limits.utf83BytesEDValidatorUpperBound),
    (limits.utf8CommonLowerBound, limits.utf8CommonUpperBound),
    (limits.utf8CommonLowerBound, limits.utf8CommonUpperBound),
    (limits.utf84BytesFirstLowerBound, limits.utf84BytesFirstUpperBound),
    (limits.utf84BytesF0ValidatorLowerBound, limits.utf8CommonUpperBound),
    (limits.utf8CommonLowerBound, limits.utf84BytesF4ValidatorUpperBound),
    (limits.utf8CommonLowerBound, limits.utf8CommonUpperBound),
    (limits.utf8CommonLowerBound, limits.utf8CommonUpperBound) ]

/-- The loop `for (uint32_t i = 0; i < length; ++i) appendRandUtf8Char(...)` of
`generateUtf8String`, by the number of iterations left. -/
def appendRandUtf8Chars : Nat → RandomGenerator → List Nat → Run (List Nat × RandomGenerator)
  | 0, g, utf8Str => pure (utf8Str, g)
  | n + 1, g, utf8Str => do
    let (utf8Str, g) ← appendRandUtf8Char g utf8Str
    appendRandUtf8Chars n g utf8Str

/-- The local `length` of `generateUtf8String`. -/
def utf8StringLength (r : Nat) : Nat :=
  ((limits.minUtf8RandStringLength +
    r % sub32 limits.maxUtf8RandStringLength limits.minUtf8RandStringLength) % 2 ^ 64) % 2 ^ 32

/-- Function `generateUtf8String`. -/
def generateUtf8String (g : RandomGenerator) (utf8Str : List Nat) :
    Run (List Nat × RandomGenerator) :=
  let d := g.mt64
  appendRandUtf8Chars (utf8StringLength d.1) d.2 utf8Str

/-- Sample stream: the draws listed, then zeros. -/
def streamOf (draws : List Nat) : Nat → Nat := fun i => draws.getD i 0

/-- Modelled from the spec: `ValueType` comes from the velocypack headers, which are not
part of the sources; it is the Type Tag enumeration of the data model. -/
abbrev ValueType := JasonType

/-- The argument of a call `builder.add(...)` in the fuzzer: the `Value` / `ValuePair`
constructor used and its arguments. Strings and binary blobs are byte sequences, a
`double` is its bit pattern. -/
inductive Value
  | ofBool (b : Bool)
  | ofString (s : List Nat)
  | ofType (t : ValueType)
  | ofUInt64 (u : Nat) (t : ValueType)
  | ofInt64 (i : Int)
  | ofDouble (bits : Nat)
  | ofPointer (t : ValueType)
  | pair (bytes : List Nat) (size : Nat) (t : ValueType)
  deriving DecidableEq, Repr

/-- The calls the fuzzer makes on its `Builder`. -/
inductive Op
  | openArray (unindexed : Bool)
  | openObject (unindexed : Bool)
  | add (v : Value)
  | close
  deriving DecidableEq, Repr

/-- The call opens a container. -/
def Op.isOpen : Op → Bool
  | Op.openArray _ => true
  | Op.openObject _ => true
  | _ => false

/-- The copy `memcpy(&intValue, &uintValue, sizeof(uintValue))`: the `int64_t` with the
bit pattern of a `uint64_t`. -/
def memcpy_int64 (uintValue : Nat) : Int :=
  if uintValue < 2 ^ 63 then (uintValue : Int) else (uintValue : Int) - 2 ^ 64

/-- The test `std::isfinite` on the bit pattern of a `double`: the exponent field is not
all ones. -/
def isfinite (bits : Nat) : Bool :=
  (bits / 2 ^ 52) % 2 ^ 11 != 2047

/-- The loop `do { ... } while (!std::isfinite(doubleValue))` of `ADD_DOUBLE`. -/
def finiteDouble : Nat → RandomGenerator → Run (Nat × RandomGenerator)
  | 0, _ => .error Abort.outOfFuel
  | fuel + 1, g =>
    let d := g.mt64
    if isfinite d.1 then pure (d.1, d.2) else finiteDouble fuel d.2

/-- The inner loop `while (true)` of `ADD_OBJECT`: draw a key until
`keys.emplace(key).second` holds. The set `keys` is the list of its elements. -/
def freshKey : Nat → List (List Nat) → RandomGenerator →
    Run (List Nat × List (List Nat) × RandomGenerator)
  | 0, _, _ => .error Abort.outOfFuel
  | fuel + 1, keys, g => do
    let (key, g) ← generateUtf8String g []
    if key ∈ keys then freshKey fuel keys g
    else pure (key, key :: keys, g)

/-- The loop `for (uint32_t i = 0; i < numMembers; ++i)` of `ADD_ARRAY`, by the number of
iterations left; `gen` is the recursive call `generateVelocypack(builder, depth + 1, ...)`. -/
def arrayMembers (gen : RandomGenerator → Run (List Op × RandomGenerator)) :
    Nat → RandomGenerator → Run (List Op × RandomGenerator)
  | 0, g => pure ([], g)
  | n + 1, g => do
    let (ops, g) ← gen g
    let (rest, g) ← arrayMembers gen n g
    pure (ops ++ rest, g)

/-- The loop `for (uint32_t i = 0; i < numMembers; ++i)` of `ADD_OBJECT`, by the number
of iterations left. -/
def objectMembers (gen : RandomGenerator → Run (List Op × RandomGenerator)) (fuel : Nat) :
    Nat → List (List Nat) → RandomGenerator → Run (List Op × List (List Nat) × RandomGenerator)
  | 0, keys, g => pure ([], keys, g)
  | n + 1, keys, g => do
    let (key, keys, g) ← freshKey fuel keys g
    let (ops, g) ← gen g
    let (rest, keys, g) ← objectMembers gen fuel n keys g
    pure (Op.add (Value.ofString key) :: (ops ++ rest), keys, g)

/-- The local `maxValue` of `generateVelocypack<Format>`. -/
def maxValue : Format → RandomBuilderAdditions
  | Format.VPackFormat => RandomBuilderAdditions.ADD_MAX_VPACK_VALUE
  | Format.JSONFormat => RandomBuilderAdditions.ADD_DOUBLE

/-- The draw `static_cast<RandomBuilderAdditions>(randomGenerator.mt64() % maxValue)`,
as a number. -/
def drawAddition (fmt : Format) (r : Nat) : Nat := r % (maxValue fmt).val

/-- Function `generateVelocypack<Format>`, from the head of its `while (true)` loop:
`keys` is the local set, `fuel` bounds the number of loop iterations and the depth of the
recursive calls. The calls made on `builder` are returned in order. -/
def generateVelocypackLoop (fmt : Format) :
    Nat → Nat → List (List Nat) → RandomGenerator → Run (List Op × RandomGenerator)
  | 0, _, _, _ => .error Abort.outOfFuel
  | fuel + 1, depth, keys, g =>
    let d := g.mt64
    let randomBuilderAdds := drawAddition fmt d.1
    let g := d.2
    if depth > limits.maxDepth ∧ randomBuilderAdds ≤ RandomBuilderAdditions.ADD_OBJECT.val then
      generateVelocypackLoop fmt fuel depth keys g
    else
      match RandomBuilderAdditions.static_cast randomBuilderAdds with
      | some .ADD_ARRAY => do
        let d := g.mt64
        let unindexed := d.1 % 2 != 0
        let d := d.2.mt64
        let numMembers := (d.1 % limits.arrayNumMembers) % 2 ^ 32
        let (ms, g) ← arrayMembers
          (fun g => generateVelocypackLoop fmt fuel ((depth + 1) % 2 ^ 32) [] g) numMembers d.2
        pure (Op.openArray unindexed :: (ms ++ [Op.close]), g)
      | some .ADD_OBJECT => do
        let d := g.mt64
        let unindexed := d.1 % 2 != 0
        let d := d.2.mt64
        let numMembers := (d.1 % limits.objNumMembers) % 2 ^ 32
        let (ms, _, g) ← objectMembers
          (fun g => generateVelocypackLoop fmt fuel ((depth + 1) % 2 ^ 32) [] g) fuel
          numMembers keys d.2
        pure (Op.openObject unindexed :: (ms ++ [Op.close]), g)
      | some .ADD_BOOLEAN =>
        let d := g.mt64
        pure ([Op.add (Value.ofBool (d.1 % 2 != 0))], d.2)
      | some .ADD_STRING => do
        let (key, g) ← generateUtf8String g []
        pure ([Op.add (Value.ofString key)], g)
      | some .ADD_NULL =>
        pure ([Op.add (Value.ofType JasonType.Null)], g)
      | some .ADD_UINT64 =>
        let d := g.mt64
        pure ([Op.add (Value.ofUInt64 d.1 JasonType.UInt)], d.2)
      | some .ADD_INT64 =>
        let d := g.mt64
        pure ([Op.add (Value.ofInt64 (memcpy_int64 d.1))], d.2)
      | some .ADD_DOUBLE => do
        let (doubleValue, g) ← finiteDouble fuel g
        pure ([Op.add (Value.ofDouble doubleValue)], g)
      | some .ADD_UTC_DATE =>
        let d := g.mt64
        pure ([Op.add (Value.ofUInt64 d.1 JasonType.UTCDate)], d.2)
      | some .ADD_BINARY => do
        let (binaries, g) ← generateUtf8String g []
        pure ([Op.add (Value.pair binaries binaries.length JasonType.Binary)], g)
      | some .ADD_EXTERNAL =>
        pure ([Op.add (Value.ofPointer JasonType.External)], g)
      | some .ADD_ILLEGAL =>
        pure ([Op.add (Value.ofType JasonType.Illegal)], g)
      | some .ADD_MIN_KEY =>
        pure ([Op.add (Value.ofType JasonType.MinKey)], g)
      | some .ADD_MAX_KEY =>
        pure ([Op.add (Value.ofType JasonType.MaxKey)], g)
      | _ => .error Abort.assertAddition

/-- Function `generateVelocypack<Format>(builder, depth, randomGenerator)`: the set
`keys` starts empty. -/
def generateVelocypack (fmt : Format) (fuel depth : Nat) (g : RandomGenerator) :
    Run (List Op × RandomGenerator) :=
  generateVelocypackLoop fmt fuel depth [] g

/-! ### Shape of the generated call sequences -/

/-- The calls that add one member of an object: the key, then the calls of its value. -/
def memberOps (p : List Nat × List Op) : List Op :=
  Op.add (Value.ofString p.1) :: p.2

/-- The values a JSON text can hold: the arguments `builder.add` receives in the
branches `ADD_BOOLEAN`, `ADD_STRING`, `ADD_NULL`, `ADD_UINT64`, `ADD_INT64` (and for the
keys of an object). -/
def Value.isJSONKind : Value → Bool
  | Value.ofBool _ => true
  | Value.ofString _ => true
  | Value.ofType JasonType.Null => true
  | Value.ofUInt64 _ JasonType.UInt => true
  | Value.ofInt64 _ => true
  | _ => false

/-- The scalars a format admits: any for `VPackFormat`, the JSON kinds for `JSONFormat`. -/
def scalarOf (fmt : Format) (v : Value) : Prop :=
  fmt = Format.VPackFormat ∨ v.isJSONKind = true

/-- A call sequence that encodes exactly one complete value: a single `add` of a scalar,
or `openArray`, complete values and one `close`, or `openObject`, pairs of one string-key
`add` and one complete value, and one `close`. -/
inductive CompleteValue : List Op → Prop
  | scalar (v : Value) : CompleteValue [Op.add v]
  | array (unindexed : Bool) (ms : List (List Op)) (h : ∀ m ∈ ms, CompleteValue m) :
      CompleteValue (Op.openArray unindexed :: (ms.flatten ++ [Op.close]))
  | object (unindexed : Bool) (ps : List (List Nat × List Op))
      (h : ∀ p ∈ ps, CompleteValue p.2) :
      CompleteValue (Op.openObject unindexed :: ((ps.map memberOps).flatten ++ [Op.close]))

/-- A call sequence of one value in which the keys added to each object, between its
`openObject` and the matching `close`, are pairwise different. -/
inductive DistinctKeys : List Op → Prop
  | scalar (v : Value) : DistinctKeys [Op.add v]
  | array (unindexed : Bool) (ms : List (List Op)) (h : ∀ m ∈ ms, DistinctKeys m) :
      DistinctKeys (Op.openArray unindexed :: (ms.flatten ++ [Op.close]))
  | object (unindexed : Bool) (ps : List (List Nat × List Op))
      (hk : (ps.map Prod.fst).Nodup) (h : ∀ p ∈ ps, DistinctKeys p.2) :
      DistinctKeys (Op.openObject unindexed :: ((ps.map memberOps).flatten ++ [Op.close]))

/-- What one call of `generateVelocypack` emits: one value whose scalars satisfy `S`,
whose containers have fewer members than the limits `arrayNumMembers` / `objNumMembers`,
and whose objects have pairwise different keys. -/
inductive Generated (S : Value → Prop) : List Op → Prop
  | scalar (v : Value) (hv : S v) : Generated S [Op.add v]
  | array (unindexed : Bool) (ms : List (List Op)) (hn : ms.length < limits.arrayNumMembers)
      (h : ∀ m ∈ ms, Generated S m) :
      Generated S (Op.openArray unindexed :: (ms.flatten ++ [Op.close]))
  | object (unindexed : Bool) (ps : List (List Nat × List Op))
      (hn : ps.length < limits.objNumMembers)
      (hk : (ps.map Prod.fst).Nodup) (h : ∀ p ∈ ps, Generated S p.2) :
      Generated S (Op.openObject unindexed :: ((ps.map memberOps).flatten ++ [Op.close]))

/-- The generator after `n` further draws. -/
def RandomGenerator.skip (g : RandomGenerator) (n : Nat) : RandomGenerator :=
  { g with pos := g.pos + n }

/-- The branch of the `switch` of `generateVelocypack` whose first call on the Builder
is the first call of the sequence. -/
def topKind : List Op → Option RandomBuilderAdditions
  | Op.openArray _ :: _ => some RandomBuilderAdditions.ADD_ARRAY
  | Op.openObject _ :: _ => some RandomBuilderAdditions.ADD_OBJECT
  | Op.add (Value.ofBool _) :: _ => some RandomBuilderAdditions.ADD_BOOLEAN
  | Op.add (Value.ofString _) :: _ => some RandomBuilderAdditions.ADD_STRING
  | Op.add (Value.ofType JasonType.Null) :: _ => some RandomBuilderAdditions.ADD_NULL
  | Op.add (Value.ofUInt64 _ JasonType.UInt) :: _ => some RandomBuilderAdditions.ADD_UINT64
  | Op.add (Value.ofInt64 _) :: _ => some RandomBuilderAdditions.ADD_INT64
  | Op.add (Value.ofDouble _) :: _ => some RandomBuilderAdditions.ADD_DOUBLE
  | Op.add (Value.ofUInt64 _ JasonType.UTCDate) :: _ => some RandomBuilderAdditions.ADD_UTC_DATE
  | Op.add (Value.pair _ _ JasonType.Binary) :: _ => some RandomBuilderAdditions.ADD_BINARY
  | Op.add (Value.ofPointer JasonType.External) :: _ => some RandomBuilderAdditions.ADD_EXTERNAL
  | Op.add (Value.ofType JasonType.Illegal) :: _ => some RandomBuilderAdditions.ADD_ILLEGAL
  | Op.add (Value.ofType JasonType.MinKey) :: _ => some RandomBuilderAdditions.ADD_MIN_KEY
  | Op.add (Value.ofType JasonType.MaxKey) :: _ => some RandomBuilderAdditions.ADD_MAX_KEY
  | _ => none

/-- The call sequence `m` is what some terminating call
`generateVelocypack<Format>(builder, depth, ...)` emits. -/
def EmittedBy (fmt : Format) (depth : Nat) (m : List Op) : Prop :=
  ∃ (fuel : Nat) (g1 g2 : RandomGenerator), generateVelocypack fmt fuel depth g1 = .ok (m, g2)

/-- What the branch `a` of the `switch` emits in a call at `depth`, where `g1` is the
generator right after the draw of the kind. `ADD_ARRAY`: `openArray` with the flag of the
next draw, then `numMembers` (the draw after that, modulo `arrayNumMembers`) complete
values, each emitted by a call at `depth + 1`, then `close`. `ADD_OBJECT`: `openObject`,
then `numMembers` pairs of one string-key `add` and one such complete value, then `close`.
Any other branch: a single `add`. -/
def ShapeOfKind (fmt : Format) (depth : Nat) (g1 : RandomGenerator)
    (a : RandomBuilderAdditions) (ops : List Op) : Prop :=
  match a with
  | RandomBuilderAdditions.ADD_ARRAY =>
    ∃ ms : List (List Op),
      ms.length = (g1.skip 1).mt64.1 % limits.arrayNumMembers
      ∧ ops = Op.openArray (g1.mt64.1 % 2 != 0) :: (ms.flatten ++ [Op.close])
      ∧ ∀ m ∈ ms, CompleteValue m ∧ EmittedBy fmt ((depth + 1) % 2 ^ 32) m
  | RandomBuilderAdditions.ADD_OBJECT =>
    ∃ ps : List (List Nat × List Op),
      ps.length = (g1.skip 1).mt64.1 % limits.objNumMembers
      ∧ ops = Op.openObject (g1.mt64.1 % 2 != 0) :: ((ps.map memberOps).flatten ++ [Op.close])
      ∧ ∀ p ∈ ps, CompleteValue p.2 ∧ EmittedBy fmt ((depth + 1) % 2 ^ 32) p.2
  | _ => ∃ v, ops = [Op.add v]

/-- A run that ends with a result satisfying `P`, or aborts for lack of fuel only. -/
def Run.EndsWith {α : Type} (P : α → Prop) : Run α → Prop
  | .ok a => P a
  | .error e => e = Abort.outOfFuel

/-! ### Option parsing and thread start in `main` -/

/-- Library function `std::from_chars` for a `uint64_t` in base 10: the longest prefix of
decimal digits is converted; `none` stands for an error code (`invalid_argument` when
there is no digit, `result_out_of_range` when the number does not fit 64 bits). -/
def from_chars (p : String) : Option Nat :=
  let digits := p.toList.takeWhile Char.isDigit
  if digits = [] then none
  else
    let v := digits.foldl (fun acc c => 10 * acc + (c.toNat - 48)) 0
    if v < 2 ^ 64 then some v else none

/-- Function `isParamValid(p, value)`: the returned flag and the content of `value`
afterwards. -/
def isParamValid (p : String) (value : Nat) : Bool × Nat :=
  match from_chars p with
  | some v => (true, v)
  | none => (false, value)

/-- Function `isOption`: `strcmp(arg, expected) == 0`. -/
def isOption (arg expected : String) : Bool := arg == expected

/-- Exit codes returned by `main` during option parsing. -/
inductive ExitCode
  | EXIT_SUCCESS | EXIT_FAILURE
  deriving DecidableEq, Repr

/-- Locals of `main` that option parsing sets. -/
structure MainLocals where
  isTypeAssigned : Bool
  numIterations : Nat
  numThreads : Nat
  isJSON : Bool
  seed : Nat
  deriving DecidableEq, Repr

/-- Locals of `main` before the option loop; `rd` is the value of `rd()`. -/
def MainLocals.initial (rd : Nat) : MainLocals :=
  { isTypeAssigned := false, numIterations := 1, numThreads := 1, isJSON := false,
    seed := rd % 2 ^ 64 }

/-- The loop `while (i < argc)` of `main` over the arguments from `argv[i]` on: either
`main` returns (after `usage`) or the loop ends with the locals set. Assignments to the
`uint32_t` locals convert the parsed `uint64_t`. -/
def parseOptions : List String → MainLocals → Except ExitCode MainLocals
  | [], s => .ok s
  | p :: rest, s =>
    if isOption p "--help" then .error ExitCode.EXIT_SUCCESS
    else if isOption p "--vpack" && !s.isTypeAssigned then
      parseOptions rest { s with isTypeAssigned := true, isJSON := false }
    else if isOption p "--json" && !s.isTypeAssigned then
      parseOptions rest { s with isTypeAssigned := true, isJSON := true }
    else if isOption p "--iterations" then
      match rest with
      | [] => .error ExitCode.EXIT_FAILURE
      | q :: rest =>
        let r := isParamValid q 0
        if !r.1 || r.2 == 0 then .error ExitCode.EXIT_FAILURE
        else parseOptions rest { s with numIterations := r.2 % 2 ^ 32 }
    else if isOption p "--threads" then
      match rest with
      | [] => .error ExitCode.EXIT_FAILURE
      | q :: rest =>
        let r := isParamValid q 0
        if !r.1 || r.2 == 0 then .error ExitCode.EXIT_FAILURE
        else parseOptions rest { s with numThreads := r.2 % 2 ^ 32 }
    else if isOption p "--seed" then
      match rest with
      | [] => .error ExitCode.EXIT_FAILURE
      | q :: rest =>
        let r := isParamValid q 0
        if !r.1 then .error ExitCode.EXIT_FAILURE
        else parseOptions rest { s with seed := r.2 }
    else .error ExitCode.EXIT_FAILURE

/-- Arguments of one `threads.emplace_back(threadCallback, iterations, Format{}, seed + i)`. -/
structure ThreadStart where
  iterations : Nat
  format : Format
  seed : Nat
  deriving DecidableEq, Repr

/-- Body of the loop `for (uint32_t i = 0; i < numThreads; ++i)` of `main`. -/
def threadStart (numThreads itsPerThread leftoverIts : Nat) (isJSON : Bool) (seed : Nat)
    (i : Nat) : ThreadStart :=
  let iterations := itsPerThread
  let iterations :=
    if i = sub32 numThreads 1 then (iterations + leftoverIts) % 2 ^ 32 else iterations
  { iterations := iterations
    format := if isJSON then Format.JSONFormat else Format.VPackFormat
    seed := (seed + i) % 2 ^ 64 }

/-- Part of `main` after option parsing: `itsPerThread`, `leftoverIts` and the threads
started, in order. A zero `numThreads` makes the division undefined. -/
def startThreads (s : MainLocals) : Run (List ThreadStart) :=
  if s.numThreads = 0 then .error Abort.divisionByZero
  else
    let itsPerThread := s.numIterations / s.numThreads
    let leftoverIts := s.numIterations % s.numThreads
    .ok ((List.range s.numThreads).map
      (threadStart s.numThreads itsPerThread leftoverIts s.isJSON s.seed))

/-- Outcome of `main` up to the start of the threads. -/
inductive MainOutcome
  | returned (code : ExitCode)
  | undefinedDivision (s : MainLocals)
  | started (s : MainLocals) (threads : List ThreadStart)
  deriving DecidableEq, Repr

/-- Function `main(argc, argv)` up to the start of the threads; `argv` holds the
arguments from `argv[1]` on. -/
def Fuzzer.main (argv : List String) (rd : Nat) : MainOutcome :=
  match parseOptions argv (MainLocals.initial rd) with
  | .error code => MainOutcome.returned code
  | .ok s =>
    match startThreads s with
    | .error _ => MainOutcome.undefinedDivision s
    | .ok ts => MainOutcome.started s ts

/-! ### Builder and UTF-8 check used by the fuzzer -/

/-- Modelled from the spec: error kinds of the Builder (section 7); the Builder itself
is not part of the sources. -/
inductive BuilderError
  | StructuralError
  | DuplicateKey
  | NotClosed
  deriving DecidableEq, Repr

/-- Modelled from the spec: an open-container record of the Builder stack (section 3,
Lifecycle), reduced to what the structural rules read: the kind of container, and for an
object the keys appended so far and whether the next append must be a key. -/
inductive Frame
  | array
  | object (keys : List (List Nat)) (awaitingKey : Bool)
  deriving DecidableEq, Repr

/-- Modelled from the spec: structural state of a Builder (section 4.3): the stack of
open containers (innermost first), the number of complete top-level values, and the
policy flag `checkAttributeUniqueness` of its `Options`. -/
structure Builder where
  stack : List Frame
  topLevel : Nat
  checkAttributeUniqueness : Bool
  deriving DecidableEq, Repr

namespace Builder

/-- Modelled from the spec: `clear()` resets the buffer and the container stack to
`Empty`. -/
def clear (b : Builder) : Builder :=
  { b with stack := [], topLevel := 0 }

/-- Modelled from the spec: a value (scalar or container) may start at the current
position: not inside an object that awaits a key, and at top level only while no
top-level value exists (`Closed` holds at most one top-level value). -/
def acceptsValue (b : Builder) : Bool :=
  match b.stack with
  | [] => b.topLevel == 0
  | Frame.array :: _ => true
  | Frame.object _ awaitingKey :: _ => !awaitingKey

/-- Modelled from the spec: bookkeeping after a complete value was appended at the
current position; an object then awaits its next key. -/
def valueDone (b : Builder) : Builder :=
  match b.stack with
  | [] => { b with topLevel := b.topLevel + 1 }
  | Frame.array :: _ => b
  | Frame.object keys _ :: rest => { b with stack := Frame.object keys true :: rest }

/-- Modelled from the spec: `addValue`. In an object that awaits a key the value must be
a string and is the key (rejected as duplicate under `checkAttributeUniqueness`);
anywhere else it is a value, which is a structural error where none is accepted. -/
def add (b : Builder) (v : Value) : Except BuilderError Builder :=
  match b.stack with
  | Frame.object keys true :: rest =>
    match v with
    | Value.ofString key =>
      if b.checkAttributeUniqueness && decide (key ∈ keys) then .error BuilderError.DuplicateKey
      else .ok { b with stack := Frame.object (key :: keys) false :: rest }
    | _ => .error BuilderError.StructuralError
  | _ => if b.acceptsValue then .ok b.valueDone else .error BuilderError.StructuralError

/-- Modelled from the spec: `openArray` pushes a new container context. -/
def openArray (b : Builder) : Except BuilderError Builder :=
  if b.acceptsValue then .ok { b with stack := Frame.array :: b.stack }
  else .error BuilderError.StructuralError

/-- Modelled from the spec: `openObject` pushes a new container context; the object
starts by awaiting a key. -/
def openObject (b : Builder) : Except BuilderError Builder :=
  if b.acceptsValue then .ok { b with stack := Frame.object [] true :: b.stack }
  else .error BuilderError.StructuralError

/-- Modelled from the spec: `close()` pops the top container context, which then is a
complete value of the enclosing context; closing without a matching open, or an object
whose last key has no value, is a structural error. -/
def close (b : Builder) : Except BuilderError Builder :=
  match b.stack with
  | [] => .error BuilderError.StructuralError
  | Frame.object _ false :: _ => .error BuilderError.StructuralError
  | _ :: rest => .ok (valueDone { b with stack := rest })

/-- Modelled from the spec: `slice()` fails with a not-closed condition if any container
is still open; the result is the number of top-level values the finished buffer holds. -/
def slice (b : Builder) : Except BuilderError Nat :=
  if b.stack = [] then .ok b.topLevel else .error BuilderError.NotClosed

/-- One call of the fuzzer on the Builder. -/
def step (b : Builder) : Op → Except BuilderError Builder
  | Op.openArray _ => b.openArray
  | Op.openObject _ => b.openObject
  | Op.add v => b.add v
  | Op.close => b.close

/-- A sequence of calls on the Builder, stopping at the first error. -/
def run (b : Builder) : List Op → Except BuilderError Builder
  | [] => .ok b
  | op :: ops =>
    match b.step op with
    | .ok b => run b ops
    | .error e => .error e

end Builder

/-- Continuation byte range `0x80..0xBF`. -/
def isCont (b : Nat) : Bool := decide (0x80 ≤ b ∧ b ≤ 0xBF)

/-- Modelled from the spec: the well-formedness check behind `validateUtf8Strings` is
not part of the sources; a byte sequence that encodes exactly one code point is one row
of the table of well-formed UTF-8 byte sequences (no overlong form, no surrogate,
nothing above U+10FFFF). -/
def isUtf8Char : List Nat → Bool
  | [b0] => decide (b0 < 0x80)
  | [b0, b1] => decide (0xC2 ≤ b0 ∧ b0 ≤ 0xDF) && isCont b1
  | [b0, b1, b2] =>
    (decide (b0 = 0xE0) && decide (0xA0 ≤ b1 ∧ b1 ≤ 0xBF) && isCont b2)
    || (decide (0xE1 ≤ b0 ∧ b0 ≤ 0xEC) && isCont b1 && isCont b2)
    || (decide (b0 = 0xED) && decide (0x80 ≤ b1 ∧ b1 ≤ 0x9F) && isCont b2)
    || (decide (0xEE ≤ b0 ∧ b0 ≤ 0xEF) && isCont b1 && isCont b2)
  | [b0, b1, b2, b3] =>
    (decide (b0 = 0xF0) && decide (0x90 ≤ b1 ∧ b1 ≤ 0xBF) && isCont b2 && isCont b3)
    || (decide (0xF1 ≤ b0 ∧ b0 ≤ 0xF3) && isCont b1 && isCont b2 && isCont b3)
    || (decide (b0 = 0xF4) && decide (0x80 ≤ b1 ∧ b1 ≤ 0x8F) && isCont b2 && isCont b3)
  | _ => false

/-- Modelled from the spec: the UTF-8 well-formedness check on a whole string: the bytes
split into well-formed sequences of one to four bytes. -/
def validUtf8 : List Nat → Bool
  | [] => true
  | b0 :: r0 =>
    (isUtf8Char [b0] && validUtf8 r0) ||
    match r0 with
    | [] => false
    | b1 :: r1 =>
      (isUtf8Char [b0, b1] && validUtf8 r1) ||
      match r1 with
      | [] => false
      | b2 :: r2 =>
        (isUtf8Char [b0, b1, b2] && validUtf8 r2) ||
        match r2 with
        | [] => false
        | b3 :: r3 => isUtf8Char [b0, b1, b2, b3] && validUtf8 r3

/-! ## Part 3: theorems about `src/Jason.h` -/

/-- Claim C1. Constructor/getter round trip of class `Jason`: every payload constructor
sets `cType()` to its own variant (`None` for the external pointer), the matching getter
returns exactly the value passed, `jasonType()` is the tag passed and otherwise the
default of the constructor (`Null, Bool, Double, External, Int, UInt, String`), and for an
`int32_t` value `i32` resp. a `uint32_t` value `u32` the 32-bit constructors build the
descriptor of the 64-bit constructors at the same (sign- resp. zero-extended) value. -/
theorem Jason.constructor_getter_roundtrip (b : Bool) (d : Nat) (i : Int) (u s e : Nat)
    (i32 : Int) (u32 : Nat) (t : JasonType)
    (hlo : -2 ^ 31 ≤ i32) (hhi : i32 < 2 ^ 31) (hu : u32 < 2 ^ 32) :
    ((Jason.ofBool b t).cType = Jason.CType.Bool ∧ (Jason.ofBool b t).getBool = .ok b
      ∧ (Jason.ofBool b t).jasonType = t ∧ (Jason.ofBool b).jasonType = JasonType.Bool)
    ∧ ((Jason.ofDouble d t).cType = Jason.CType.Double ∧ (Jason.ofDouble d t).getDouble = .ok d
      ∧ (Jason.ofDouble d t).jasonType = t ∧ (Jason.ofDouble d).jasonType = JasonType.Double)
    ∧ ((Jason.ofInt64 i t).cType = Jason.CType.Int64 ∧ (Jason.ofInt64 i t).getInt64 = .ok i
      ∧ (Jason.ofInt64 i t).jasonType = t ∧ (Jason.ofInt64 i).jasonType = JasonType.Int)
    ∧ ((Jason.ofUInt64 u t).cType = Jason.CType.UInt64 ∧ (Jason.ofUInt64 u t).getUInt64 = .ok u
      ∧ (Jason.ofUInt64 u t).jasonType = t ∧ (Jason.ofUInt64 u).jasonType = JasonType.UInt)
    ∧ ((Jason.ofString s t).cType = Jason.CType.String ∧ (Jason.ofString s t).getString = .ok s
      ∧ (Jason.ofString s t).jasonType = t ∧ (Jason.ofString s).jasonType = JasonType.String)
    ∧ ((Jason.ofExternal e).cType = Jason.CType.None ∧ (Jason.ofExternal e).getExternal = .ok e
      ∧ (Jason.ofExternal e).jasonType = JasonType.External)
    ∧ ((Jason.ofType t).jasonType = t ∧ Jason.ofType.jasonType = JasonType.Null)
    ∧ (Jason.ofInt32 i32 t = Jason.ofInt64 i32 t ∧ Jason.ofInt32 i32 = Jason.ofInt64 i32
      ∧ (Jason.ofInt32 i32 t).getInt64 = .ok i32)
    ∧ (Jason.ofUInt32 u32 t = Jason.ofUInt64 u32 t ∧ Jason.ofUInt32 u32 = Jason.ofUInt64 u32
      ∧ (Jason.ofUInt32 u32 t).getUInt64 = .ok u32)
    ∧ (Jason.ofInt32 (-1)).getInt64 = .ok (-1)
    ∧ (Jason.ofUInt64 u JasonType.UTCDate).jasonType = JasonType.UTCDate := by
  have h1 : static_cast_int64 i32 = i32 := by
    unfold static_cast_int64
    omega
  have h2 : static_cast_uint64 u32 = u32 := by
    unfold static_cast_uint64
    omega
  have h3 : static_cast_int64 (-1) = -1 := by decide
  simp [Jason.ofBool, Jason.ofDouble, Jason.ofInt64, Jason.ofUInt64, Jason.ofString,
    Jason.ofExternal, Jason.ofType, Jason.ofInt32, Jason.ofUInt32, Jason.cType, Jason.jasonType,
    Jason.getBool, Jason.getDouble, Jason.getInt64, Jason.getUInt64, Jason.getString,
    Jason.getExternal, h1, h2, h3]

/-- Witness for C1 at `int32_t(-2147483648)` and `uint32_t(4294967295)`: the 32-bit
constructors agree with the 64-bit ones and the getters return the extended values. -/
theorem Jason.constructor_getter_roundtrip_witness :
    (Jason.ofInt32 (-2147483648) JasonType.SmallInt).getInt64 = .ok (-2147483648)
    ∧ (Jason.ofUInt32 4294967295 JasonType.SmallInt).getUInt64 = .ok 4294967295
    ∧ (Jason.ofBool true JasonType.SmallInt).getBool = .ok true :=
  have h := Jason.constructor_getter_roundtrip true 0 0 0 0 0 (-2147483648) 4294967295
    JasonType.SmallInt (by decide) (by decide) (by decide)
  ⟨h.2.2.2.2.2.2.2.1.2.2, h.2.2.2.2.2.2.2.2.1.2.2, h.1.2.1⟩

/-- Claim C2, evaluated at its failing input. The `assert` of `getExternal` is
`_cType == None`; on the descriptor of the tag-only constructor `Jason(JasonType::Null)`
it passes although the constructor wrote no member of the union, so `getExternal` reads
a member that holds no value. Hence "assertion passes implies the member read is the
member written" fails for `getExternal`. -/
theorem Jason.getExternal_passes_on_tag_only :
    Jason.Getter.assertionPasses Jason.Getter.getExternal (Jason.ofType JasonType.Null) = true
    ∧ (Jason.ofType JasonType.Null)._value.active = none
    ∧ (Jason.ofType JasonType.Null).getExternal = .error Jason.GetError.inactiveMember
    ∧ ¬ (∀ (c : Jason.Ctor) (g : Jason.Getter), g.assertionPasses c.build = true →
          c.build._value.active = some g.reads) := by
  refine ⟨by decide, by decide, by decide, ?_⟩
  intro h
  have := h (Jason.Ctor.ofType JasonType.Null) Jason.Getter.getExternal (by decide)
  simp [Jason.Ctor.build, Jason.ofType, Jason.UnionValue.active] at this

/-- Claim C3. Typed getters never coerce: on the descriptor of any constructor call `c`,
each of `getBool`, `getDouble`, `getInt64`, `getUInt64`, `getString` returns a value
exactly when `cType()` is its own variant and otherwise fails its assertion; the outcome
is the same for every type tag `t`; `getInt64` on a descriptor built from a `uint64_t`
and `getUInt64` on one built from an `int64_t` fail their assertions. -/
theorem Jason.typed_getters_never_coerce (c : Jason.Ctor) (t : JasonType) (i : Int) (u : Nat) :
    (((∃ v, c.build.getBool = .ok v) ↔ c.build.cType = Jason.CType.Bool)
      ∧ (c.build.getBool = .error Jason.GetError.assertionFailed
          ↔ c.build.cType ≠ Jason.CType.Bool))
    ∧ (((∃ v, c.build.getDouble = .ok v) ↔ c.build.cType = Jason.CType.Double)
      ∧ (c.build.getDouble = .error Jason.GetError.assertionFailed
          ↔ c.build.cType ≠ Jason.CType.Double))
    ∧ (((∃ v, c.build.getInt64 = .ok v) ↔ c.build.cType = Jason.CType.Int64)
      ∧ (c.build.getInt64 = .error Jason.GetError.assertionFailed
          ↔ c.build.cType ≠ Jason.CType.Int64))
    ∧ (((∃ v, c.build.getUInt64 = .ok v) ↔ c.build.cType = Jason.CType.UInt64)
      ∧ (c.build.getUInt64 = .error Jason.GetError.assertionFailed
          ↔ c.build.cType ≠ Jason.CType.UInt64))
    ∧ (((∃ v, c.build.getString = .ok v) ↔ c.build.cType = Jason.CType.String)
      ∧ (c.build.getString = .error Jason.GetError.assertionFailed
          ↔ c.build.cType ≠ Jason.CType.String))
    ∧ ((c.withTag t).build.getBool = c.build.getBool
      ∧ (c.withTag t).build.getDouble = c.build.getDouble
      ∧ (c.withTag t).build.getInt64 = c.build.getInt64
      ∧ (c.withTag t).build.getUInt64 = c.build.getUInt64
      ∧ (c.withTag t).build.getString = c.build.getString)
    ∧ (Jason.ofUInt64 u t).getInt64 = .error Jason.GetError.assertionFailed
    ∧ (Jason.ofInt64 i t).getUInt64 = .error Jason.GetError.assertionFailed := by
  cases c <;>
    simp [Jason.Ctor.build, Jason.Ctor.withTag, Jason.ofBool, Jason.ofDouble, Jason.ofInt64,
      Jason.ofUInt64, Jason.ofString, Jason.ofExternal, Jason.ofType, Jason.ofInt32,
      Jason.ofUInt32, Jason.cType, Jason.getBool, Jason.getDouble, Jason.getInt64,
      Jason.getUInt64, Jason.getString]

/-! ## Part 4: theorems about option parsing and thread start -/

/-- Claim C4, evaluated at its failing input. The arguments `--threads 4294967296` pass
the test `!isParamValid(p, value) || !value` (the parsed `uint64_t` is not zero) and the
assignment to the `uint32_t` local stores `numThreads = 0`; option parsing does not end in
`usage()` / `EXIT_FAILURE`, and `numIterations / numThreads` divides by zero. Likewise
`--iterations 4294967296` stores `numIterations = 0`. -/
theorem Fuzzer.main_accepts_zero_counts (rd : Nat) :
    parseOptions ["--threads", "4294967296"] (MainLocals.initial rd)
      = .ok { isTypeAssigned := false, numIterations := 1, numThreads := 0, isJSON := false,
              seed := rd % 2 ^ 64 }
    ∧ Fuzzer.main ["--threads", "4294967296"] rd
      = MainOutcome.undefinedDivision
          { isTypeAssigned := false, numIterations := 1, numThreads := 0, isJSON := false,
            seed := rd % 2 ^ 64 }
    ∧ parseOptions ["--iterations", "4294967296"] (MainLocals.initial rd)
      = .ok { isTypeAssigned := false, numIterations := 0, numThreads := 1, isJSON := false,
              seed := rd % 2 ^ 64 } := by
  have hv : isParamValid "4294967296" 0 = (true, 4294967296) := by decide
  have h1 : isOption "--threads" "--help" = false := by decide
  have h2 : isOption "--threads" "--vpack" = false := by decide
  have h3 : isOption "--threads" "--json" = false := by decide
  have h4 : isOption "--threads" "--iterations" = false := by decide
  have h5 : isOption "--threads" "--threads" = true := by decide
  have k1 : isOption "--iterations" "--help" = false := by decide
  have k2 : isOption "--iterations" "--vpack" = false := by decide
  have k3 : isOption "--iterations" "--json" = false := by decide
  have k4 : isOption "--iterations" "--iterations" = true := by decide
  refine ⟨?_, ?_, ?_⟩
  · simp [parseOptions, MainLocals.initial, hv, h1, h2, h3, h4, h5]
  · simp [Fuzzer.main, startThreads, parseOptions, MainLocals.initial, hv, h1, h2, h3, h4, h5]
  · simp [parseOptions, MainLocals.initial, hv, k1, k2, k3, k4]

theorem sum_map_range_not_last (q r k : Nat) :
    ∀ m, m ≤ k →
      ((List.range m).map (fun i => if i + 1 = k + 1 then q + r else q)).sum = m * q := by
  intro m
  induction m with
  | zero => intro _; simp
  | succ m ih =>
    intro hm
    have hne : ¬ (m + 1 = k + 1) := by omega
    rw [List.range_succ, List.map_append, List.sum_append, ih (by omega)]
    simp only [List.map_cons, List.map_nil, List.sum_cons, List.sum_nil, if_neg hne]
    rw [Nat.succ_mul]
    omega

theorem sub32_one (n : Nat) (h1 : 1 ≤ n) (h2 : n < 2 ^ 32) : sub32 n 1 = n - 1 := by
  unfold sub32
  omega

/-- Thread start for stored counts: with `numThreads >= 1` (both counts `uint32_t`)
`main` starts `numThreads` threads; thread `i` gets `itsPerThread = numIterations /
numThreads` iterations, the last one `itsPerThread + leftoverIts` (which does not
overflow `uint32_t`), the iterations of all threads add up to the stored `numIterations`,
and thread `i` is started with the `uint64_t` sum `seed + i`. -/
theorem threads_receive_all_iterations (s : MainLocals)
    (hi : s.numIterations < 2 ^ 32) (h1 : 1 ≤ s.numThreads) (h2 : s.numThreads < 2 ^ 32) :
    ∃ ts, startThreads s = .ok ts
      ∧ ts.length = s.numThreads
      ∧ (∀ i, i < s.numThreads →
          ts[i]? = some
            { iterations :=
                if i + 1 = s.numThreads then
                  s.numIterations / s.numThreads + s.numIterations % s.numThreads
                else s.numIterations / s.numThreads
              format := if s.isJSON then Format.JSONFormat else Format.VPackFormat
              seed := (s.seed + i) % 2 ^ 64 })
      ∧ s.numIterations / s.numThreads + s.numIterations % s.numThreads < 2 ^ 32
      ∧ (ts.map ThreadStart.iterations).sum = s.numIterations := by
  obtain ⟨a, N, n, j, sd⟩ := s
  simp only at hi h1 h2 ⊢
  have hq : N / n ≤ N := Nat.div_le_self N n
  have hdm : n * (N / n) + N % n = N := Nat.div_add_mod N n
  have hle : N / n ≤ n * (N / n) := Nat.le_mul_of_pos_left _ h1
  have hsum : N / n + N % n < 2 ^ 32 := by omega
  have hmod : (N / n + N % n) % 4294967296 = N / n + N % n := Nat.mod_eq_of_lt hsum
  have hs := sub32_one n h1 h2
  refine ⟨_, by simp only [startThreads]; rw [if_neg (by omega)], by simp, ?_, hsum, ?_⟩
  · intro i hin
    have hiff : (i = n - 1) ↔ (i + 1 = n) := by omega
    simp [List.getElem?_map, List.getElem?_range hin, threadStart, hs, hmod, hiff]
  · obtain ⟨k, rfl⟩ : ∃ k, n = k + 1 := ⟨n - 1, by omega⟩
    have hfun : (ThreadStart.iterations ∘
        threadStart (k + 1) (N / (k + 1)) (N % (k + 1)) j sd)
        = fun i => if i + 1 = k + 1 then N / (k + 1) + N % (k + 1) else N / (k + 1) := by
      funext i
      have hiff : (i = k + 1 - 1) ↔ (i + 1 = k + 1) := by omega
      simp [threadStart, hs, hmod, hiff]
    rw [List.map_map, hfun, List.range_succ, List.map_append, List.sum_append,
      sum_map_range_not_last _ _ k k (le_refl k)]
    simp
    have := Nat.div_add_mod N (k + 1)
    rw [Nat.add_mul, Nat.one_mul] at *
    linarith [Nat.mul_comm k (N / (k + 1))]

/-- Claim C6, evaluated at its failing input. The arguments
`--iterations 4294967297 --threads 2` are accepted; the parsed `uint64_t` 4294967297 is
converted to the `uint32_t` local `numIterations = 1`, so `itsPerThread = 0`,
`leftoverIts = 1`, and the two threads are handed 0 and 1 iterations (seeds `seed` and
`seed + 1`): one iteration in total, not the 4294967297 requested. -/
theorem Fuzzer.main_hands_out_narrowed_iterations (rd : Nat) :
    isParamValid "4294967297" 0 = (true, 4294967297)
    ∧ Fuzzer.main ["--iterations", "4294967297", "--threads", "2"] rd
      = MainOutcome.started
          { isTypeAssigned := false, numIterations := 1, numThreads := 2, isJSON := false,
            seed := rd % 2 ^ 64 }
          [ { iterations := 0, format := Format.VPackFormat, seed := (rd % 2 ^ 64 + 0) % 2 ^ 64 },
            { iterations := 1, format := Format.VPackFormat, seed := (rd % 2 ^ 64 + 1) % 2 ^ 64 } ]
    ∧ ((([ { iterations := 0, format := Format.VPackFormat, seed := (rd % 2 ^ 64 + 0) % 2 ^ 64 },
           { iterations := 1, format := Format.VPackFormat, seed := (rd % 2 ^ 64 + 1) % 2 ^ 64 } ]
          : List ThreadStart).map ThreadStart.iterations).sum = 1
        ∧ (1 : Nat) ≠ 4294967297) := by
  have hv : isParamValid "4294967297" 0 = (true, 4294967297) := by decide
  have hw : isParamValid "2" 0 = (true, 2) := by decide
  have h1 : isOption "--threads" "--help" = false := by decide
  have h2 : isOption "--threads" "--vpack" = false := by decide
  have h3 : isOption "--threads" "--json" = false := by decide
  have h4 : isOption "--threads" "--iterations" = false := by decide
  have h5 : isOption "--threads" "--threads" = true := by decide
  have k1 : isOption "--iterations" "--help" = false := by decide
  have k2 : isOption "--iterations" "--vpack" = false := by decide
  have k3 : isOption "--iterations" "--json" = false := by decide
  have k4 : isOption "--iterations" "--iterations" = true := by decide
  have hs : sub32 2 1 = 1 := by decide
  have hr : List.range 2 = [0, 1] := by decide
  refine ⟨hv, ?_, by simp⟩
  simp [Fuzzer.main, startThreads, parseOptions, MainLocals.initial, hv, hw, h1, h2, h3, h4,
    h5, k1, k2, k3, k4, threadStart, hs, hr]

/-! ## Part 5: theorems about the random string generator -/

theorem randWithinRange_spec (min max : Nat) (g : RandomGenerator)
    (h : min < max) (hmax : max < 2 ^ 32) :
    ∃ v, randWithinRange min max g = .ok (v, g.mt64.2)
      ∧ v = min + g.mt64.1 % (max - min) ∧ min ≤ v ∧ v < max := by
  have hs : sub32 max min = max - min := by
    unfold sub32
    omega
  have hlt : g.mt64.1 % (max - min) < max - min := Nat.mod_lt _ (by omega)
  refine ⟨min + g.mt64.1 % (max - min), ?_, rfl, by omega, by omega⟩
  unfold randWithinRange
  simp only [hs]
  rw [if_neg (by omega)]
  have e1 : (min + g.mt64.1 % (max - min)) % 2 ^ 64 = min + g.mt64.1 % (max - min) :=
    Nat.mod_eq_of_lt (by omega)
  have e2 : (min + g.mt64.1 % (max - min)) % 2 ^ 32 = min + g.mt64.1 % (max - min) :=
    Nat.mod_eq_of_lt (by omega)
  rw [e1, e2]

theorem appendRandUtf8Char_spec (g : RandomGenerator) (utf8Str : List Nat) :
    ∃ c g', appendRandUtf8Char g utf8Str = .ok (utf8Str ++ c, g')
      ∧ isUtf8Char c = true ∧ 1 ≤ c.length ∧ c.length ≤ 3 := by
  obtain ⟨n, hn, -, hn1, hn2⟩ := randWithinRange_spec 1 4 g (by decide) (by decide)
  unfold appendRandUtf8Char
  simp only [hn, bind, Except.bind, limits]
  have hcases : n = 1 ∨ n = 2 ∨ n = 3 := by omega
  rcases hcases with rfl | rfl | rfl
  · obtain ⟨c, hc, -, hc1, hc2⟩ :=
      randWithinRange_spec 0x00 0x7F g.mt64.2 (by decide) (by decide)
    simp only [hc, pure, Except.pure, push_back]
    refine ⟨[c % 256], _, rfl, ?_, by simp, by simp⟩
    simp [isUtf8Char]
    omega
  · obtain ⟨c1, hc, -, hc1, hc2⟩ :=
      randWithinRange_spec 0xC2 0xDF g.mt64.2 (by decide) (by decide)
    obtain ⟨c2, hd, -, hd1, hd2⟩ :=
      randWithinRange_spec 0x80 0xBF g.mt64.2.mt64.2 (by decide) (by decide)
    simp only [hc, hd, pure, Except.pure, push_back]
    refine ⟨[c1 % 256, c2 % 256], g.mt64.2.mt64.2.mt64.2, by simp, ?_, by simp, by simp⟩
    simp [isUtf8Char, isCont]
    omega
  · obtain ⟨c1, hc, -, hc1, hc2⟩ :=
      randWithinRange_spec 0xE0 0xEF g.mt64.2 (by decide) (by decide)
    obtain ⟨c2, hd, -, hd1, hd2⟩ :=
      randWithinRange_spec 0xA0 0xBF g.mt64.2.mt64.2 (by decide) (by decide)
    obtain ⟨c2', hd', -, hd1', hd2'⟩ :=
      randWithinRange_spec 0x80 0x9F g.mt64.2.mt64.2 (by decide) (by decide)
    obtain ⟨c2'', hd'', -, hd1'', hd2''⟩ :=
      randWithinRange_spec 0x80 0xBF g.mt64.2.mt64.2 (by decide) (by decide)
    obtain ⟨c3, he, -, he1, he2⟩ :=
      randWithinRange_spec 0x80 0xBF g.mt64.2.mt64.2.mt64.2 (by decide) (by decide)
    simp only [hc, pure, Except.pure, push_back]
    by_cases h0 : c1 = 0xE0
    · simp only [h0, if_true, hd, he]
      refine ⟨[0xE0 % 256, c2 % 256, c3 % 256], g.mt64.2.mt64.2.mt64.2.mt64.2, by simp, ?_, by simp, by simp⟩
      simp [isUtf8Char, isCont]
      omega
    · by_cases h1 : c1 = 0xED
      · simp only [h1, if_true, hd', he]
        refine ⟨[0xED % 256, c2' % 256, c3 % 256], g.mt64.2.mt64.2.mt64.2.mt64.2, by simp, ?_, by simp, by simp⟩
        simp [isUtf8Char, isCont]
        omega
      · simp only [h0, h1, if_false, hd'', he]
        refine ⟨[c1 % 256, c2'' % 256, c3 % 256], g.mt64.2.mt64.2.mt64.2.mt64.2, by simp, ?_, by simp, by simp⟩
        simp [isUtf8Char, isCont]
        omega

theorem validUtf8_append (c rest : List Nat) (hc : isUtf8Char c = true)
    (hrest : validUtf8 rest = true) : validUtf8 (c ++ rest) = true := by
  match c, hc with
  | [b0], hc =>
    show validUtf8 (b0 :: rest) = true
    unfold validUtf8
    simp [hc, hrest]
  | [b0, b1], hc =>
    show validUtf8 (b0 :: b1 :: rest) = true
    unfold validUtf8
    simp [hc, hrest]
  | [b0, b1, b2], hc =>
    show validUtf8 (b0 :: b1 :: b2 :: rest) = true
    unfold validUtf8
    simp [hc, hrest]
  | [b0, b1, b2, b3], hc =>
    show validUtf8 (b0 :: b1 :: b2 :: b3 :: rest) = true
    unfold validUtf8
    simp [hc, hrest]
  | [], hc => simp [isUtf8Char] at hc
  | _ :: _ :: _ :: _ :: _ :: _, hc => simp [isUtf8Char] at hc

theorem validUtf8_join (cs : List (List Nat)) (h : ∀ c ∈ cs, isUtf8Char c = true) :
    validUtf8 cs.flatten = true := by
  induction cs with
  | nil => simp [validUtf8]
  | cons c cs ih =>
    rw [List.flatten_cons]
    exact validUtf8_append c cs.flatten (h c (List.mem_cons_self c cs))
      (ih (fun d hd => h d (List.mem_cons_of_mem c hd)))

theorem appendRandUtf8Chars_spec (n : Nat) :
    ∀ (g : RandomGenerator) (utf8Str : List Nat),
      ∃ (cs : List (List Nat)) (g' : RandomGenerator), appendRandUtf8Chars n g utf8Str = .ok (utf8Str ++ cs.flatten, g')
        ∧ cs.length = n ∧ ∀ c ∈ cs, isUtf8Char c = true ∧ c.length ≤ 3 := by
  induction n with
  | zero =>
    intro g utf8Str
    exact ⟨[], g, by simp [appendRandUtf8Chars, pure, Except.pure], rfl, by simp⟩
  | succ n ih =>
    intro g utf8Str
    obtain ⟨c, g1, h1, hc, -, hc3⟩ := appendRandUtf8Char_spec g utf8Str
    obtain ⟨cs, g2, h2, hlen, hall⟩ := ih g1 (utf8Str ++ c)
    refine ⟨c :: cs, g2, ?_, by simp [hlen], ?_⟩
    · simp only [appendRandUtf8Chars, h1, bind, Except.bind, h2, List.flatten_cons,
        List.append_assoc]
    · intro d hd
      rcases List.mem_cons.mp hd with rfl | hd
      · exact ⟨hc, hc3⟩
      · exact hall d hd

theorem generateUtf8String_spec (g : RandomGenerator) :
    ∃ (cs : List (List Nat)) (g' : RandomGenerator), generateUtf8String g [] = .ok (cs.flatten, g')
      ∧ 1 ≤ cs.length ∧ cs.length ≤ 999
      ∧ ∀ c ∈ cs, isUtf8Char c = true ∧ c.length ≤ 3 := by
  obtain ⟨cs, g', h, hlen, hall⟩ := appendRandUtf8Chars_spec (utf8StringLength g.mt64.1) g.mt64.2 []
  have hl : utf8StringLength g.mt64.1 = 1 + g.mt64.1 % 999 := by
    have hs : sub32 1000 1 = 999 := by decide
    unfold utf8StringLength
    simp only [limits, hs]
    omega
  refine ⟨cs, g', by simpa [generateUtf8String] using h, by omega, by omega, hall⟩

/-- Claim C9. Every call of `appendRandUtf8Char` appends one well-formed UTF-8 encoded
code point to the string, and `generateUtf8String`, started on an empty string, returns
the concatenation of between `minUtf8RandStringLength = 1` and `maxUtf8RandStringLength
= 1000` such code points, which passes the UTF-8 well-formedness check. -/
theorem generated_strings_are_wellformed_utf8 (g : RandomGenerator) (utf8Str : List Nat) :
    (∃ c g', appendRandUtf8Char g utf8Str = .ok (utf8Str ++ c, g') ∧ isUtf8Char c = true)
    ∧ (∃ (cs : List (List Nat)) (g' : RandomGenerator), generateUtf8String g [] = .ok (cs.flatten, g')
        ∧ limits.minUtf8RandStringLength ≤ cs.length
        ∧ cs.length ≤ limits.maxUtf8RandStringLength
        ∧ (∀ c ∈ cs, isUtf8Char c = true)
        ∧ validUtf8 cs.flatten = true) := by
  constructor
  · obtain ⟨c, g', h, hc, -⟩ := appendRandUtf8Char_spec g utf8Str
    exact ⟨c, g', h, hc⟩
  · obtain ⟨cs, g', h, h1, h2, hall⟩ := generateUtf8String_spec g
    refine ⟨cs, g', h, h1, ?_, fun c hc => (hall c hc).1,
      validUtf8_join cs (fun c hc => (hall c hc).1)⟩
    simp only [limits]
    omega

/-- Claim C10. For `uint32_t` bounds `min < max`, `randWithinRange` returns
`min + r % (max - min)` for the draw `r`, a value in the half-open range `[min, max)`;
every call site of the fuzzer passes `min < max`; hence `numBytes = randWithinRange(1, 4)`
is 1, 2 or 3, `appendRandUtf8Char` reaches neither `case 4` nor the failing assertion of
its `default`, divides by no zero, and appends at most 3 bytes. -/
theorem randWithinRange_half_open (min max : Nat) (g : RandomGenerator) (utf8Str : List Nat)
    (h : min < max) (hmax : max < 2 ^ 32) :
    (∃ v, randWithinRange min max g = .ok (v, g.mt64.2)
      ∧ v = min + g.mt64.1 % (max - min) ∧ min ≤ v ∧ v < max)
    ∧ (∀ p ∈ randWithinRangeCallSites, p.1 < p.2 ∧ p.2 < 2 ^ 32)
    ∧ (∃ numBytes, randWithinRange 1 4 g = .ok (numBytes, g.mt64.2)
        ∧ (numBytes = 1 ∨ numBytes = 2 ∨ numBytes = 3))
    ∧ (∃ c g', appendRandUtf8Char g utf8Str = .ok (utf8Str ++ c, g')
        ∧ 1 ≤ c.length ∧ c.length ≤ 3) := by
  refine ⟨randWithinRange_spec min max g h hmax, by decide, ?_, ?_⟩
  · obtain ⟨n, hn, -, h1, h2⟩ := randWithinRange_spec 1 4 g (by decide) (by decide)
    exact ⟨n, hn, by omega⟩
  · obtain ⟨c, g', h, -, h1, h3⟩ := appendRandUtf8Char_spec g utf8Str
    exact ⟨c, g', h, h1, h3⟩

/-- Witness for C10: the range `[1, 4)` on a generator whose first draw is 5. -/
theorem randWithinRange_half_open_witness :
    (∃ v, randWithinRange 1 4 ⟨streamOf [5, 9], 0⟩
        = .ok (v, (RandomGenerator.mt64 ⟨streamOf [5, 9], 0⟩).2)
      ∧ v = 1 + (RandomGenerator.mt64 ⟨streamOf [5, 9], 0⟩).1 % (4 - 1) ∧ 1 ≤ v ∧ v < 4) :=
  (randWithinRange_half_open 1 4 ⟨streamOf [5, 9], 0⟩ [] (by decide) (by decide)).1

/-! ## Part 6: theorems about `generateVelocypack` -/

theorem Run.EndsWith.bind {α β : Type} {P : α → Prop} {Q : β → Prop} {x : Run α}
    {f : α → Run β} (hx : Run.EndsWith P x) (hf : ∀ a, P a → Run.EndsWith Q (f a)) :
    Run.EndsWith Q (x >>= f) := by
  cases x with
  | error e => simpa [Run.EndsWith, bind, Except.bind] using hx
  | ok a => simpa [bind, Except.bind] using hf a hx

theorem generateUtf8String_endsWith (g : RandomGenerator) :
    Run.EndsWith (fun _ => True) (generateUtf8String g []) := by
  obtain ⟨cs, g', h, -⟩ := generateUtf8String_spec g
  rw [h]
  trivial

theorem finiteDouble_endsWith (fuel : Nat) :
    ∀ g, Run.EndsWith (fun _ => True) (finiteDouble fuel g) := by
  induction fuel with
  | zero => intro g; simp [finiteDouble, Run.EndsWith]
  | succ fuel ih =>
    intro g
    unfold finiteDouble
    simp only
    split
    · trivial
    · exact ih _

theorem freshKey_endsWith (fuel : Nat) (keys : List (List Nat)) :
    ∀ g, Run.EndsWith (fun r => r.1 ∉ keys ∧ r.2.1 = r.1 :: keys) (freshKey fuel keys g) := by
  induction fuel with
  | zero => intro g; simp [freshKey, Run.EndsWith]
  | succ fuel ih =>
    intro g
    unfold freshKey
    refine Run.EndsWith.bind (generateUtf8String_endsWith g) ?_
    rintro ⟨key, g1⟩ -
    simp only
    split
    · exact ih _
    · rename_i hk
      exact ⟨hk, rfl⟩

theorem arrayMembers_endsWith (P : List Op → Prop)
    (gen : RandomGenerator → Run (List Op × RandomGenerator))
    (hgen : ∀ g, Run.EndsWith (fun r => P r.1) (gen g)) (n : Nat) :
    ∀ g, Run.EndsWith
      (fun r => ∃ ms : List (List Op), ms.length = n ∧ r.1 = ms.flatten ∧ ∀ m ∈ ms, P m)
      (arrayMembers gen n g) := by
  induction n with
  | zero =>
    intro g
    exact ⟨[], rfl, rfl, by simp⟩
  | succ n ih =>
    intro g
    unfold arrayMembers
    refine Run.EndsWith.bind (hgen g) ?_
    rintro ⟨ops, g1⟩ hops
    refine Run.EndsWith.bind (ih g1) ?_
    rintro ⟨rest, g2⟩ ⟨ms, hlen, hrest, hall⟩
    refine ⟨ops :: ms, by simp [hlen], ?_, ?_⟩
    · simp only at hrest
      simp [hrest]
    · intro m hm
      rcases List.mem_cons.mp hm with rfl | hm
      · exact hops
      · exact hall m hm

theorem objectMembers_endsWith (P : List Op → Prop)
    (gen : RandomGenerator → Run (List Op × RandomGenerator))
    (hgen : ∀ g, Run.EndsWith (fun r => P r.1) (gen g)) (fuel n : Nat) :
    ∀ keys g, Run.EndsWith
      (fun r => ∃ ps : List (List Nat × List Op), ps.length = n
        ∧ r.1 = (ps.map memberOps).flatten
        ∧ (ps.map Prod.fst).Nodup ∧ (∀ k ∈ ps.map Prod.fst, k ∉ keys)
        ∧ ∀ p ∈ ps, P p.2)
      (objectMembers gen fuel n keys g) := by
  induction n with
  | zero =>
    intro keys g
    exact ⟨[], rfl, rfl, by simp, by simp, by simp⟩
  | succ n ih =>
    intro keys g
    unfold objectMembers
    refine Run.EndsWith.bind (freshKey_endsWith fuel keys g) ?_
    rintro ⟨key, keys1, g1⟩ ⟨hfresh, hkeys⟩
    simp only at hfresh hkeys
    refine Run.EndsWith.bind (hgen g1) ?_
    rintro ⟨ops, g2⟩ hops
    refine Run.EndsWith.bind (ih keys1 g2) ?_
    rintro ⟨rest, keys2, g3⟩ ⟨ps, hlen, hrest, hnd, hnotin, hall⟩
    subst hkeys
    refine ⟨(key, ops) :: ps, by simp [hlen], ?_, ?_, ?_, ?_⟩
    · simp only at hrest
      simp [hrest, memberOps]
    · rw [List.map_cons, List.nodup_cons]
      refine ⟨fun hin => ?_, hnd⟩
      exact hnotin key hin (List.mem_cons_self key keys)
    · intro k hk
      rw [List.map_cons] at hk
      rcases List.mem_cons.mp hk with rfl | hk
      · exact hfresh
      · exact fun hin => hnotin k hk (List.mem_cons_of_mem key hin)
    · intro p hp
      rcases List.mem_cons.mp hp with rfl | hp
      · exact hops
      · exact hall p hp

theorem static_cast_of_lt (n : Nat) (h : n < 14) :
    ∃ a, RandomBuilderAdditions.static_cast n = some a ∧ a.val = n
      ∧ a ≠ RandomBuilderAdditions.ADD_MAX_VPACK_VALUE := by
  interval_cases n <;> exact ⟨_, rfl, rfl, by decide⟩

theorem drawAddition_lt (fmt : Format) (r : Nat) : drawAddition fmt r < (maxValue fmt).val := by
  unfold drawAddition
  apply Nat.mod_lt
  cases fmt <;> decide

theorem maxValue_val_le (fmt : Format) : (maxValue fmt).val ≤ 14 := by
  cases fmt <;> decide

theorem maxValue_json : (maxValue Format.JSONFormat).val = 7 := rfl

theorem drawAddition_cast (fmt : Format) (r : Nat) :
    ∃ a, RandomBuilderAdditions.static_cast (drawAddition fmt r) = some a
      ∧ a.val = drawAddition fmt r ∧ a.val < (maxValue fmt).val := by
  have h := drawAddition_lt fmt r
  have h14 : drawAddition fmt r < 14 := by
    have := maxValue_val_le fmt
    omega
  obtain ⟨a, ha, hv, -⟩ := static_cast_of_lt _ h14
  exact ⟨a, ha, hv, by omega⟩

theorem vpack_of_cast (fmt : Format) (r : Nat) (a : RandomBuilderAdditions)
    (h : RandomBuilderAdditions.static_cast (drawAddition fmt r) = some a) (ha : 7 ≤ a.val) :
    fmt = Format.VPackFormat := by
  obtain ⟨b, hb, -, hlt⟩ := drawAddition_cast fmt r
  rw [h] at hb
  cases hb
  cases fmt
  · rfl
  · rw [maxValue_json] at hlt
    omega

theorem generateVelocypackLoop_endsWith (fmt : Format) (fuel : Nat) :
    ∀ depth keys g, Run.EndsWith (fun r => Generated (scalarOf fmt) r.1)
      (generateVelocypackLoop fmt fuel depth keys g) := by
  induction fuel with
  | zero => intro depth keys g; simp [generateVelocypackLoop, Run.EndsWith]
  | succ fuel ih =>
    intro depth keys g
    unfold generateVelocypackLoop
    simp only
    split
    · exact ih _ _ _
    · split
      · -- ADD_ARRAY
        refine Run.EndsWith.bind
          (arrayMembers_endsWith (Generated (scalarOf fmt)) _ (fun g => ih _ _ g) _ _) ?_
        rintro ⟨ms, g1⟩ ⟨mss, hlen, hms, hall⟩
        simp only at hms
        subst hms
        refine Generated.array _ mss ?_ hall
        rw [hlen]
        simp only [limits]
        omega
      · -- ADD_OBJECT
        refine Run.EndsWith.bind
          (objectMembers_endsWith (Generated (scalarOf fmt)) _ (fun g => ih _ _ g) _ _ _ _) ?_
        rintro ⟨ms, keys1, g1⟩ ⟨ps, hlen, hms, hnd, -, hall⟩
        simp only at hms
        subst hms
        refine Generated.object _ ps ?_ hnd hall
        rw [hlen]
        simp only [limits]
        omega
      · exact Generated.scalar _ (Or.inr rfl)
      · refine Run.EndsWith.bind (generateUtf8String_endsWith _) ?_
        rintro ⟨key, g1⟩ -
        exact Generated.scalar _ (Or.inr rfl)
      · exact Generated.scalar _ (Or.inr rfl)
      · exact Generated.scalar _ (Or.inr rfl)
      · exact Generated.scalar _ (Or.inr rfl)
      · rename_i hc
        refine Run.EndsWith.bind (finiteDouble_endsWith _ _) ?_
        rintro ⟨v, g1⟩ -
        exact Generated.scalar _ (Or.inl (vpack_of_cast fmt _ _ hc (by decide)))
      · rename_i hc
        exact Generated.scalar _ (Or.inl (vpack_of_cast fmt _ _ hc (by decide)))
      · rename_i hc
        refine Run.EndsWith.bind (generateUtf8String_endsWith _) ?_
        rintro ⟨key, g1⟩ -
        exact Generated.scalar _ (Or.inl (vpack_of_cast fmt _ _ hc (by decide)))
      · rename_i hc
        exact Generated.scalar _ (Or.inl (vpack_of_cast fmt _ _ hc (by decide)))
      · rename_i hc
        exact Generated.scalar _ (Or.inl (vpack_of_cast fmt _ _ hc (by decide)))
      · rename_i hc
        exact Generated.scalar _ (Or.inl (vpack_of_cast fmt _ _ hc (by decide)))
      · rename_i hc
        exact Generated.scalar _ (Or.inl (vpack_of_cast fmt _ _ hc (by decide)))
      · exfalso
        obtain ⟨a, ha, hv, hlt⟩ := drawAddition_cast fmt (g.mt64.1)
        have h14 : a.val < 14 := by
          have := maxValue_val_le fmt
          omega
        cases a <;> simp_all [RandomBuilderAdditions.val]

theorem Generated.completeValue {S : Value → Prop} {ops : List Op} (h : Generated S ops) :
    CompleteValue ops := by
  induction h with
  | scalar v _ => exact CompleteValue.scalar v
  | array u ms _ _ ih => exact CompleteValue.array u ms ih
  | object u ps _ _ _ ih => exact CompleteValue.object u ps ih

theorem Generated.distinctKeys {S : Value → Prop} {ops : List Op} (h : Generated S ops) :
    DistinctKeys ops := by
  induction h with
  | scalar v _ => exact DistinctKeys.scalar v
  | array u ms _ _ ih => exact DistinctKeys.array u ms ih
  | object u ps _ hk _ ih => exact DistinctKeys.object u ps hk ih

theorem Generated.scalars {S : Value → Prop} {ops : List Op} (h : Generated S ops)
    (hkey : ∀ k, S (Value.ofString k)) : ∀ v, Op.add v ∈ ops → S v := by
  induction h with
  | scalar v hv =>
    intro w hw
    simp only [List.mem_singleton, Op.add.injEq] at hw
    exact hw ▸ hv
  | array u ms _ _ ih =>
    intro w hw
    simp only [List.mem_cons, List.mem_append, List.mem_flatten, List.mem_singleton,
      List.not_mem_nil, reduceCtorEq, or_false, false_or] at hw
    obtain ⟨m, hm, hwm⟩ := hw
    exact ih m hm w hwm
  | object u ps _ _ _ ih =>
    intro w hw
    simp only [List.mem_cons, List.mem_append, List.mem_flatten, List.mem_singleton,
      List.mem_map, List.not_mem_nil, reduceCtorEq, or_false, false_or] at hw
    obtain ⟨l, ⟨p, hp, rfl⟩, hwl⟩ := hw
    simp only [memberOps, List.mem_cons, Op.add.injEq] at hwl
    rcases hwl with rfl | hwl
    · exact hkey _
    · exact ih p hp w hwl

theorem Builder.run_append (ops rest : List Op) :
    ∀ b : Builder, Builder.run b (ops ++ rest)
      = match Builder.run b ops with
        | .ok b' => Builder.run b' rest
        | .error e => .error e := by
  induction ops with
  | nil => intro b; simp [Builder.run]
  | cons op ops ih =>
    intro b
    simp only [List.cons_append, Builder.run]
    cases hs : b.step op with
    | error e => simp
    | ok b1 => simpa using ih b1

theorem Builder.add_value (b : Builder) (v : Value) (h : b.acceptsValue = true) :
    b.add v = .ok b.valueDone := by
  obtain ⟨stack, n, flag⟩ := b
  rcases stack with _ | ⟨f, st⟩
  · simp [Builder.add, h]
  · rcases f with _ | ⟨keys, awaitingKey⟩
    · simp [Builder.add, h]
    · cases awaitingKey
      · simp [Builder.add, h]
      · simp [Builder.acceptsValue] at h

theorem Builder.run_array_members (ms : List (List Op))
    (ih : ∀ m ∈ ms, ∀ b : Builder, b.acceptsValue = true →
      Builder.run b m = .ok b.valueDone)
    (st : List Frame) (n : Nat) (flag : Bool) :
    Builder.run ⟨Frame.array :: st, n, flag⟩ ms.flatten = .ok ⟨Frame.array :: st, n, flag⟩ := by
  induction ms with
  | nil => simp [Builder.run]
  | cons m ms ihms =>
    rw [List.flatten_cons, Builder.run_append,
      ih m (List.mem_cons_self m ms) ⟨Frame.array :: st, n, flag⟩ rfl]
    exact ihms (fun m' hm' => ih m' (List.mem_cons_of_mem m hm'))

theorem Builder.run_object_members (ps : List (List Nat × List Op))
    (ih : ∀ p ∈ ps, ∀ b : Builder, b.acceptsValue = true →
      Builder.run b p.2 = .ok b.valueDone)
    (st : List Frame) (n : Nat) (flag : Bool) :
    ∀ ks : List (List Nat), (ps.map Prod.fst).Nodup → (∀ k ∈ ps.map Prod.fst, k ∉ ks) →
      Builder.run ⟨Frame.object ks true :: st, n, flag⟩ (ps.map memberOps).flatten
        = .ok ⟨Frame.object ((ps.map Prod.fst).reverse ++ ks) true :: st, n, flag⟩ := by
  induction ps with
  | nil => intro ks _ _; simp [Builder.run]
  | cons p ps ihps =>
    intro ks hnd hnotin
    rw [List.map_cons, List.nodup_cons] at hnd
    have hk : p.1 ∉ ks := hnotin p.1 (by simp)
    have hstep : Builder.step ⟨Frame.object ks true :: st, n, flag⟩ (Op.add (Value.ofString p.1))
        = .ok ⟨Frame.object (p.1 :: ks) false :: st, n, flag⟩ := by
      simp [Builder.step, Builder.add, hk]
    rw [List.map_cons, List.flatten_cons, Builder.run_append]
    have hmember : Builder.run ⟨Frame.object ks true :: st, n, flag⟩ (memberOps p)
        = .ok ⟨Frame.object (p.1 :: ks) true :: st, n, flag⟩ := by
      simp only [memberOps, Builder.run, hstep]
      rw [ih p (List.mem_cons_self p ps) ⟨Frame.object (p.1 :: ks) false :: st, n, flag⟩ rfl]
      rfl
    rw [hmember]
    simp only
    rw [ihps (fun q hq => ih q (List.mem_cons_of_mem p hq)) (p.1 :: ks) hnd.2]
    · simp
    · intro k hkin hmem
      rcases List.mem_cons.mp hmem with rfl | hmem
      · exact hnd.1 hkin
      · exact hnotin k (by simp [List.mem_map] at hkin ⊢; exact Or.inr hkin) hmem

theorem Generated.run {S : Value → Prop} {ops : List Op} (h : Generated S ops) :
    ∀ b : Builder, b.acceptsValue = true → Builder.run b ops = .ok b.valueDone := by
  induction h with
  | scalar v _ =>
    intro b hb
    simp [Builder.run, Builder.step, Builder.add_value b v hb]
  | array u ms _ _ ih =>
    intro b hb
    obtain ⟨st, n, flag⟩ := b
    have hopen : Builder.step ⟨st, n, flag⟩ (Op.openArray u)
        = .ok ⟨Frame.array :: st, n, flag⟩ := by
      simp [Builder.step, Builder.openArray, hb]
    simp only [Builder.run, hopen]
    rw [Builder.run_append, Builder.run_array_members ms ih st n flag]
    simp [Builder.run, Builder.step, Builder.close]
  | object u ps _ hk _ ih =>
    intro b hb
    obtain ⟨st, n, flag⟩ := b
    have hopen : Builder.step ⟨st, n, flag⟩ (Op.openObject u)
        = .ok ⟨Frame.object [] true :: st, n, flag⟩ := by
      simp [Builder.step, Builder.openObject, hb]
    simp only [Builder.run, hopen]
    rw [Builder.run_append, Builder.run_object_members ps ih st n flag [] hk (by simp)]
    simp [Builder.run, Builder.step, Builder.close]

theorem generateVelocypack_generated (fmt : Format) (fuel depth : Nat) (g g' : RandomGenerator)
    (ops : List Op) (h : generateVelocypack fmt fuel depth g = .ok (ops, g')) :
    Generated (scalarOf fmt) ops := by
  have hg := generateVelocypackLoop_endsWith fmt fuel depth [] g
  unfold generateVelocypack at h
  rw [h] at hg
  exact hg

theorem CompleteValue.balanced {ops : List Op} (h : CompleteValue ops) :
    ops.countP Op.isOpen = ops.count Op.close := by
  induction h with
  | scalar v => simp [Op.isOpen]
  | array u ms hms ih =>
    have hsum : ms.flatten.countP Op.isOpen = ms.flatten.count Op.close := by
      clear hms
      induction ms with
      | nil => simp
      | cons m ms ihms =>
        rw [List.flatten_cons, List.countP_append, List.count_append,
          ih m (List.mem_cons_self m ms),
          ihms (fun m' hm' => ih m' (List.mem_cons_of_mem m hm'))]
    simp [List.countP_cons, List.countP_append, List.count_cons, List.count_append, Op.isOpen,
      hsum]
  | object u ps hps ih =>
    have hsum : (ps.map memberOps).flatten.countP Op.isOpen
        = (ps.map memberOps).flatten.count Op.close := by
      clear hps
      induction ps with
      | nil => simp
      | cons p ps ihps =>
        rw [List.map_cons, List.flatten_cons, List.countP_append, List.count_append,
          ihps (fun q hq => ih q (List.mem_cons_of_mem p hq))]
        have := ih p (List.mem_cons_self p ps)
        simp [memberOps, List.countP_cons, List.count_cons, Op.isOpen, this]
    simp [List.countP_cons, List.countP_append, List.count_cons, List.count_append, Op.isOpen,
      hsum]

theorem Run.EndsWith.of_bind_ok {α β : Type} {P : α → Prop} {x : Run α} {f : α → Run β}
    {b : β} (hx : Run.EndsWith P x) (h : (x >>= f) = .ok b) :
    ∃ a, P a ∧ x = .ok a ∧ f a = .ok b := by
  cases x with
  | error e => cases h
  | ok a => exact ⟨a, hx, rfl, h⟩

theorem RandomGenerator.skip_zero (g : RandomGenerator) : g.skip 0 = g := rfl

theorem RandomGenerator.mt64_skip (g : RandomGenerator) (n : Nat) :
    g.mt64.2.skip n = g.skip (n + 1) := by
  simp [RandomGenerator.skip, RandomGenerator.mt64]
  omega

theorem member_endsWith (fmt : Format) (fuel depth : Nat) (g : RandomGenerator) :
    Run.EndsWith (fun r => CompleteValue r.1 ∧ EmittedBy fmt depth r.1)
      (generateVelocypackLoop fmt fuel depth [] g) := by
  have hg := generateVelocypackLoop_endsWith fmt fuel depth [] g
  cases hr : generateVelocypackLoop fmt fuel depth [] g with
  | error e => rw [hr] at hg; exact hg
  | ok r =>
    rw [hr] at hg
    exact ⟨Generated.completeValue hg, fuel, g, r.2, hr⟩

theorem generateVelocypackLoop_shape (fmt : Format) (fuel : Nat) :
    ∀ depth keys g ops g', generateVelocypackLoop fmt fuel depth keys g = .ok (ops, g') →
      ∃ n a, RandomBuilderAdditions.static_cast (drawAddition fmt (g.skip n).mt64.1) = some a
        ∧ (depth ≤ limits.maxDepth → n = 0)
        ∧ topKind ops = some a
        ∧ ShapeOfKind fmt depth (g.skip (n + 1)) a ops := by
  induction fuel with
  | zero => intro depth keys g ops g' h; simp [generateVelocypackLoop] at h
  | succ fuel ih =>
    intro depth keys g ops g' h
    unfold generateVelocypackLoop at h
    simp only at h
    split at h
    · rename_i hc
      obtain ⟨n, a, hcast, -, hkind, hshape⟩ := ih _ _ _ _ _ h
      rw [RandomGenerator.mt64_skip] at hcast hshape
      exact ⟨n + 1, a, hcast, fun hle => absurd hc.1 (Nat.not_lt.mpr hle), hkind, hshape⟩
    · split at h
      · -- ADD_ARRAY
        rename_i hcast
        obtain ⟨⟨ms, g1⟩, ⟨mss, hlen, hms, hall⟩, -, hf⟩ :=
          (arrayMembers_endsWith
            (fun m => CompleteValue m ∧ EmittedBy fmt ((depth + 1) % 2 ^ 32) m) _
            (fun g => member_endsWith fmt fuel _ g) _ _).of_bind_ok h
        simp only [pure, Except.pure, Except.ok.injEq, Prod.mk.injEq] at hf
        obtain ⟨rfl, rfl⟩ := hf
        simp only at hms
        subst hms
        refine ⟨0, _, hcast, fun _ => rfl, rfl, mss, ?_, rfl, hall⟩
        rw [hlen]
        exact Nat.mod_eq_of_lt (lt_of_lt_of_le (Nat.mod_lt _ (by decide)) (by decide))
      · -- ADD_OBJECT
        rename_i hcast
        obtain ⟨⟨ms, keys1, g1⟩, ⟨ps, hlen, hms, -, -, hall⟩, -, hf⟩ :=
          (objectMembers_endsWith
            (fun m => CompleteValue m ∧ EmittedBy fmt ((depth + 1) % 2 ^ 32) m) _
            (fun g => member_endsWith fmt fuel _ g) _ _ _ _).of_bind_ok h
        simp only [pure, Except.pure, Except.ok.injEq, Prod.mk.injEq] at hf
        obtain ⟨rfl, rfl⟩ := hf
        simp only at hms
        subst hms
        refine ⟨0, _, hcast, fun _ => rfl, rfl, ps, ?_, rfl, hall⟩
        rw [hlen]
        exact Nat.mod_eq_of_lt (lt_of_lt_of_le (Nat.mod_lt _ (by decide)) (by decide))
      case h_15 => cases h
      all_goals
        rename_i hcast
        first
        | (simp only [pure, Except.pure, Except.ok.injEq, Prod.mk.injEq] at h
           obtain ⟨rfl, rfl⟩ := h
           exact ⟨0, _, hcast, fun _ => rfl, rfl, _, rfl⟩)
        | (obtain ⟨⟨v, g1⟩, -, -, hf⟩ := (generateUtf8String_endsWith _).of_bind_ok h
           simp only [pure, Except.pure, Except.ok.injEq, Prod.mk.injEq] at hf
           obtain ⟨rfl, rfl⟩ := hf
           exact ⟨0, _, hcast, fun _ => rfl, rfl, _, rfl⟩)
        | (obtain ⟨⟨v, g1⟩, -, -, hf⟩ := (finiteDouble_endsWith _ _).of_bind_ok h
           simp only [pure, Except.pure, Except.ok.injEq, Prod.mk.injEq] at hf
           obtain ⟨rfl, rfl⟩ := hf
           exact ⟨0, _, hcast, fun _ => rfl, rfl, _, rfl⟩)

/-- Claim C5. The format decides the kinds `generateVelocypack` may add. The value a
completed call adds is the one of the branch `mt64() % maxValue` of the draw it accepted
(its first draw when `depth <= maxDepth`), with `maxValue = ADD_DOUBLE` for `JSONFormat`
and `ADD_MAX_VPACK_VALUE` for `VPackFormat`, so its kind lies below `maxValue`. With
`JSONFormat` every value added, nested ones included, is a boolean, string, null,
`uint64_t` or `int64_t`. Every enumerator below `maxValue` (all 14 of `ADD_ARRAY ..
ADD_MAX_KEY` for `VPackFormat`, the 7 of `ADD_ARRAY .. ADD_INT64` for `JSONFormat`) is
added by some run. The failing assertion of the `default` branch is never reached. -/
theorem generateVelocypack_addition_kinds (fmt : Format) (fuel depth : Nat)
    (g : RandomGenerator) :
    (∀ ops g', generateVelocypack fmt fuel depth g = .ok (ops, g') →
      ∃ n, topKind ops
            = RandomBuilderAdditions.static_cast ((g.skip n).mt64.1 % (maxValue fmt).val)
        ∧ (depth ≤ limits.maxDepth → n = 0)
        ∧ ∃ a, topKind ops = some a ∧ a.val < (maxValue fmt).val)
    ∧ (maxValue Format.JSONFormat = RandomBuilderAdditions.ADD_DOUBLE
        ∧ maxValue Format.VPackFormat = RandomBuilderAdditions.ADD_MAX_VPACK_VALUE
        ∧ RandomBuilderAdditions.ADD_DOUBLE.val = 7
        ∧ RandomBuilderAdditions.ADD_MAX_VPACK_VALUE.val = 14)
    ∧ (∀ ops g', generateVelocypack Format.JSONFormat fuel depth g = .ok (ops, g') →
        ∀ v, Op.add v ∈ ops → v.isJSONKind = true)
    ∧ (∀ a : RandomBuilderAdditions, a.val < (maxValue fmt).val →
        ∃ ops g', generateVelocypack fmt 2 0 ⟨streamOf [a.val], 0⟩ = .ok (ops, g')
          ∧ topKind ops = some a)
    ∧ generateVelocypack fmt fuel depth g ≠ .error Abort.assertAddition := by
  refine ⟨?_, ⟨rfl, rfl, rfl, rfl⟩, ?_, ?_, ?_⟩
  · intro ops g' h
    obtain ⟨n, a, hcast, hn, hkind, -⟩ := generateVelocypackLoop_shape fmt fuel depth [] g ops g' h
    refine ⟨n, ?_, hn, a, hkind, ?_⟩
    · rw [hkind, ← hcast]
      rfl
    · obtain ⟨b, hb, -, hlt⟩ := drawAddition_cast fmt (g.skip n).mt64.1
      rw [hcast] at hb
      cases hb
      exact hlt
  · intro ops g' h v hv
    have hg := generateVelocypack_generated Format.JSONFormat fuel depth g g' ops h
    have hs := Generated.scalars hg (fun k => Or.inr rfl) v hv
    rcases hs with hs | hs
    · exact absurd hs (by decide)
    · exact hs
  · intro a ha
    cases fmt <;> cases a <;>
      first
      | exact absurd ha (by decide)
      | exact ⟨_, _, rfl, rfl⟩
  · intro h
    have hg := generateVelocypackLoop_endsWith fmt fuel depth [] g
    unfold generateVelocypack at h
    rw [h] at hg
    cases hg

/-- Claim C7. In the calls emitted by a completed `generateVelocypack`, the keys added
to each object between its `openObject` and the matching `close` are pairwise different,
so a Builder with `checkAttributeUniqueness` set, cleared before the call, reports no
duplicate key. -/
theorem generated_object_keys_are_distinct (fmt : Format) (fuel depth : Nat)
    (g g' : RandomGenerator) (ops : List Op)
    (h : generateVelocypack fmt fuel depth g = .ok (ops, g')) :
    DistinctKeys ops
    ∧ Builder.run { stack := [], topLevel := 0, checkAttributeUniqueness := true } ops
        ≠ .error BuilderError.DuplicateKey := by
  have hg := generateVelocypack_generated fmt fuel depth g g' ops h
  refine ⟨hg.distinctKeys, ?_⟩
  rw [hg.run { stack := [], topLevel := 0, checkAttributeUniqueness := true } rfl]
  exact fun hne => by cases hne

/-- Witness for C7: a JSON run that draws the key `A` twice for one object and redraws
the second one; the object gets the keys `A` and `B`. -/
theorem generated_object_keys_are_distinct_witness :
    DistinctKeys
      [Op.openObject true, Op.add (Value.ofString [65]), Op.add (Value.ofType JasonType.Null),
       Op.add (Value.ofString [66]), Op.add (Value.ofBool true), Op.close]
    ∧ Builder.run { stack := [], topLevel := 0, checkAttributeUniqueness := true }
        [Op.openObject true, Op.add (Value.ofString [65]),
         Op.add (Value.ofType JasonType.Null),
         Op.add (Value.ofString [66]), Op.add (Value.ofBool true), Op.close]
        ≠ .error BuilderError.DuplicateKey :=
  generated_object_keys_are_distinct Format.JSONFormat 5 0
    ⟨streamOf [1, 1, 2, 0, 0, 65, 4, 0, 0, 65, 0, 0, 66, 2, 1], 0⟩
    ⟨streamOf [1, 1, 2, 0, 0, 65, 4, 0, 0, 65, 0, 0, 66, 2, 1], 15⟩ _ (by rfl)

/-- Claim C8. The calls emitted by one terminating `generateVelocypack` encode exactly
one complete value: for the kind `a` of the accepted draw (the first draw when `depth <=
maxDepth`) they are `openArray` followed by `numMembers` complete values and one `close`,
or `openObject` followed by `numMembers` pairs (one string-key `add`, then one complete
value) and one `close`, where `numMembers` is the draw modulo the member limit and every
member value is itself emitted by a call at `depth + 1`, or else a single `add`. Opens
and closes are balanced; on a Builder cleared before the call every call succeeds (no
`close` without an open container, no value where a key is expected), the Builder ends
with no open container and one top-level value, and `slice()` succeeds. -/
theorem generateVelocypack_emits_one_complete_value (fmt : Format) (fuel depth : Nat)
    (g g' : RandomGenerator) (ops : List Op) (b : Builder)
    (h : generateVelocypack fmt fuel depth g = .ok (ops, g')) :
    CompleteValue ops
    ∧ (∃ n a,
        RandomBuilderAdditions.static_cast (drawAddition fmt (g.skip n).mt64.1) = some a
        ∧ (depth ≤ limits.maxDepth → n = 0)
        ∧ ShapeOfKind fmt depth (g.skip (n + 1)) a ops)
    ∧ ops.countP Op.isOpen = ops.count Op.close
    ∧ Builder.run b.clear ops
        = .ok { stack := [], topLevel := 1,
                checkAttributeUniqueness := b.checkAttributeUniqueness }
    ∧ (∀ before after, ops = before ++ after → ∃ b', Builder.run b.clear before = .ok b')
    ∧ Builder.slice { stack := [], topLevel := 1,
                      checkAttributeUniqueness := b.checkAttributeUniqueness } = .ok 1 := by
  have hg := generateVelocypack_generated fmt fuel depth g g' ops h
  have hrun : Builder.run b.clear ops
      = .ok { stack := [], topLevel := 1,
              checkAttributeUniqueness := b.checkAttributeUniqueness } :=
    hg.run b.clear rfl
  obtain ⟨n, a, hcast, hn, -, hshape⟩ := generateVelocypackLoop_shape fmt fuel depth [] g ops g' h
  refine ⟨hg.completeValue, ⟨n, a, hcast, hn, hshape⟩, hg.completeValue.balanced, hrun, ?_, rfl⟩
  intro before after hsplit
  rw [hsplit, Builder.run_append] at hrun
  cases hb : Builder.run b.clear before with
  | ok b' => exact ⟨b', rfl⟩
  | error e => rw [hb] at hrun; cases hrun

/-- Witness for C8: a VPack run at depth 0 whose draws are `ADD_OBJECT`, indexed,
`numMembers = 2`, key `A`, an empty array, key `B`, an illegal value. The sequence is an
`openObject`, two key/value pairs whose values are emitted by calls at depth 1, and a
`close`, and it runs on a cleared Builder. -/
theorem generateVelocypack_emits_one_complete_value_witness :
    (∃ ps : List (List Nat × List Op),
        ps.length = 2
        ∧ [Op.openObject false, Op.add (Value.ofString [65]), Op.openArray true, Op.close,
           Op.add (Value.ofString [66]), Op.add (Value.ofType JasonType.Illegal), Op.close]
          = Op.openObject false :: ((ps.map memberOps).flatten ++ [Op.close])
        ∧ ∀ p ∈ ps, CompleteValue p.2 ∧ EmittedBy Format.VPackFormat 1 p.2)
    ∧ Builder.run (Builder.clear { stack := [Frame.array], topLevel := 3,
                                   checkAttributeUniqueness := true })
        [Op.openObject false, Op.add (Value.ofString [65]), Op.openArray true, Op.close,
         Op.add (Value.ofString [66]), Op.add (Value.ofType JasonType.Illegal), Op.close]
      = .ok { stack := [], topLevel := 1, checkAttributeUniqueness := true } := by
  obtain ⟨-, ⟨n, a, hcast, hn, hshape⟩, -, hrun, -⟩ :=
    generateVelocypack_emits_one_complete_value Format.VPackFormat 5 0
      ⟨streamOf [1, 0, 2, 0, 0, 65, 0, 1, 0, 0, 0, 66, 11], 0⟩
      ⟨streamOf [1, 0, 2, 0, 0, 65, 0, 1, 0, 0, 0, 66, 11], 13⟩
      [Op.openObject false, Op.add (Value.ofString [65]), Op.openArray true, Op.close,
       Op.add (Value.ofString [66]), Op.add (Value.ofType JasonType.Illegal), Op.close]
      { stack := [Frame.array], topLevel := 3, checkAttributeUniqueness := true } (by rfl)
  obtain rfl := hn (by decide)
  have ha : a = RandomBuilderAdditions.ADD_OBJECT := by
    have hc : RandomBuilderAdditions.static_cast (drawAddition Format.VPackFormat
        (RandomGenerator.mt64
          (RandomGenerator.skip ⟨streamOf [1, 0, 2, 0, 0, 65, 0, 1, 0, 0, 0, 66, 11], 0⟩ 0)).1)
        = some RandomBuilderAdditions.ADD_OBJECT := by decide
    rw [hc] at hcast
    exact (Option.some.inj hcast).symm
  subst ha
  exact ⟨hshape, hrun⟩
